
import Mathlib

/-!
# A shallow embedding of the `funex` limit order book

This file embeds the order-matching engine of `src/funex/structures.py` and
`src/funex/orderbook.py` into Lean 4 and proves properties about it.

Modelling conventions, used consistently below:

* Python's `datetime.now()` is modelled by a `now : Nat` argument threaded
  into every operation; every call of `now()` inside one operation yields
  that value.  `Order.listed` is `Option Nat` because the source checks
  `order.listed is None`.
* Prices (Python floats) are modelled as rationals `ℚ`; volumes (Python
  positive ints, decremented towards zero) as `Nat`.
* Python exceptions are modelled with `Except (Err × σ) ...`: a failure
  carries the state at the moment the exception is raised, since Python
  exceptions do not roll back earlier mutations.
* Python objects are aliased: the `SortedList` and the `__ids` dict of an
  `OrderList` hold references to the same `Order` objects, so a field
  mutation is visible through both.  The model stores `Order` values in
  both containers and performs every mutation through `OrderList.store`,
  which rewrites the entry with the mutated order's id in both containers.
  Object identity is mediated by the (unique) order id.
* `Order.__setattr__` stamps `updated` on every field write; each model
  mutation therefore also sets `updated := now`.
-/

/-- `OrderStatus` from `structures.py`.  `partFilled` renders the source's
`PARTIALLY_FILLED` constructor. -/
inductive OrderStatus where
  | created
  | partFilled
  | filled
  | modified
  | cancelled
  | restored
  | expired
deriving DecidableEq, Repr

/-- `OrderStatus.is_active` from `structures.py`: membership in
`{CREATED, PARTIALLY_FILLED, MODIFIED, RESTORED}`. -/
def OrderStatus.is_active : OrderStatus → Bool
  | .created => true
  | .partFilled => true
  | .modified => true
  | .restored => true
  | _ => false

/-- `OrderType` from `structures.py`. -/
inductive OrderType where
  | ask
  | bid
deriving DecidableEq, Repr

/-- `Order` from `structures.py` (pydantic model).  Construction-time
pydantic validation (`PositiveInt`, `PositiveFloat`) is not modelled; the
claims only exercise orders that satisfy it. -/
structure Order where
  id : Nat
  order_type : OrderType
  price : ℚ
  volume : Nat
  owner_id : Nat
  status : OrderStatus
  created : Nat
  updated : Nat
  listed : Option Nat
deriving DecidableEq, Repr

/-- One entry of `OrderBook.tape`: the dict appended by `OrderBook.fill`. -/
structure Trade where
  order : Nat
  contr_order : Nat
  price : ℚ
  volume : Nat
  time : Nat
deriving DecidableEq, Repr

/-- The distinct `ValueError`/`TypeError`/`KeyError` exits of the source,
one constructor per raise site message. -/
inductive Err where
  /-- `structures.add`: "Order type must be the same as the list type". -/
  | orderTypeMismatch
  /-- `structures`: "Provided order ID not found". -/
  | idNotFound
  /-- "Invalid order type" (both in `structures` resolution branches and in
  `orderbook.get_order` / `orderbook.search_order`). -/
  | invalidOrderType
  /-- `structures`: "Order is not active.". -/
  | notActive
  /-- `structures.unlist`: "Order cannot be unlisted with active status.". -/
  | unlistActiveStatus
  /-- `structures.relist`: "Active order cannot have non-active status". -/
  | relistNonActiveStatus
  /-- `structures.fill`: "Volume must be positive". -/
  | volumeNotPositive
  /-- `structures.fill`: "Volume is greater than order volume". -/
  | volumeExceedsOrder
  /-- `structures.modify`: "Price and volume must be positive". -/
  | priceVolumeNotPositive
  /-- Python `TypeError` from comparing `None` with a number, raised while
  `structures.modify` evaluates `any([price <= 0, volume <= 0])`. -/
  | typeError
  /-- Python `ValueError` from `SortedList.remove` on an absent element. -/
  | removeMissing
  /-- Python `KeyError` from `dict` item access or deletion. -/
  | keyError
  /-- `orderbook.search_order`: "Order not found". -/
  | orderNotFound
  /-- `orderbook.cancel` and `orderbook.expire`:
  "Order is already cancelled or expired". -/
  | alreadyCancelledOrExpired
  /-- `orderbook.restore`: "Order is already active". -/
  | alreadyActive
deriving DecidableEq, Repr

/-- The duck-typed `Union[Order, int]` parameter taken by most operations:
either an `Order` object or an integer id.  (The source's
"Invalid order type" branch for arguments of any other runtime type is
unrepresentable in the typed model.) -/
inductive OArg where
  | byId (i : Nat)
  | byOrder (o : Order)
deriving DecidableEq, Repr

/-- The `tolist` parameter of `OrderList.add`; `"auto"`, truthy values
(`True`, `"y"`, `"yes"`) and falsy ones (`False`, `"n"`, `"no"`) collapse to
three cases.  The "Invalid value for tolist" branch is unrepresentable. -/
inductive Tolist where
  | auto
  | yes
  | no
deriving DecidableEq, Repr

/-- `OrderList` from `structures.py`: the price-sorted structure
(`__order_list`, a `SortedList` of orders) and the id table (`__ids`,
a dict mapping id to order). -/
structure OrderList where
  order_list : List Order
  ids : List (Nat × Order)
  otype : OrderType
deriving DecidableEq, Repr

namespace OrderList

/-- `OrderList.get`: dict lookup `self.__ids.get(order_id)`. -/
def get (l : OrderList) (i : Nat) : Option Order :=
  (l.ids.find? (fun p => decide (p.1 = i))).map (fun p => p.2)

/-- Dict write `self.__ids[order.id] = order`: update the entry in place
when the key exists, otherwise append a new entry. -/
def setId (ids : List (Nat × Order)) (i : Nat) (o : Order) : List (Nat × Order) :=
  if ids.any (fun p => decide (p.1 = i)) then
    ids.map (fun p => if p.1 = i then (p.1, o) else p)
  else
    ids ++ [(i, o)]

/-- Mutation of an `Order` object aliased by both containers: every entry
carrying the mutated order's id is rewritten to the new value. -/
def store (l : OrderList) (o : Order) : OrderList :=
  { l with
    order_list := l.order_list.map (fun x => if x.id = o.id then o else x)
    ids := l.ids.map (fun p => if p.1 = o.id then (p.1, o) else p) }

/-- `SortedList.add`: insert keeping the list sorted by price, after any
equal-priced elements (the library inserts at the `bisect_right` point). -/
def insertByPrice : List Order → Order → List Order
  | [], o => [o]
  | x :: xs, o => if o.price < x.price then o :: x :: xs else x :: insertByPrice xs o

/-- `SortedList.remove(order)`: removes that object from the sorted
structure, raising `ValueError` when it is absent.  Identity is mediated by
the order id. -/
def removeListed (l : OrderList) (i : Nat) : Except Err OrderList :=
  if l.order_list.any (fun x => decide (x.id = i)) then
    Except.ok { l with order_list := l.order_list.eraseP (fun x => decide (x.id = i)) }
  else
    Except.error Err.removeMissing

/-- The argument-resolution prologue repeated in `unlist`, `relist`,
`remove`, `expire`, `cancel`, `fill` and `modify`: an `int` is looked up in
`__ids` ("Provided order ID not found" when absent), an `Order` object is
used as-is. -/
def resolve (l : OrderList) (a : OArg) : Except Err Order :=
  match a with
  | .byId i =>
    match l.get i with
    | some o => Except.ok o
    | none => Except.error Err.idNotFound
  | .byOrder o => Except.ok o

/-- `OrderList.add` from `structures.py`. -/
def add (l : OrderList) (o : Order) (tolist : Tolist) (now : Nat) :
    Except (Err × OrderList) OrderList :=
  if o.order_type ≠ l.otype then Except.error (Err.orderTypeMismatch, l)
  else
    match tolist with
    | .auto =>
      if o.status.is_active then
        let o1 := if o.listed = none then { o with listed := some now, updated := now } else o
        Except.ok { l with
          order_list := insertByPrice l.order_list o1
          ids := setId l.ids o1.id o1 }
      else
        Except.ok { l with ids := setId l.ids o.id o }
    | .yes =>
      Except.ok { l with
        order_list := insertByPrice l.order_list o
        ids := setId l.ids o.id o }
    | .no =>
      Except.ok { l with ids := setId l.ids o.id o }

/-- `OrderList.unlist` from `structures.py`. -/
def unlist (l : OrderList) (a : OArg) (st : OrderStatus) (now : Nat) :
    Except (Err × OrderList) OrderList :=
  match l.resolve a with
  | .error e => Except.error (e, l)
  | .ok o =>
    if o.status.is_active = false then Except.error (Err.notActive, l)
    else if st.is_active then Except.error (Err.unlistActiveStatus, l)
    else
      match l.removeListed o.id with
      | .error e => Except.error (e, l)
      | .ok l1 => Except.ok (l1.store { o with status := st, updated := now })

/-- `OrderList.relist` from `structures.py`.  The source mutates the shared
object (`status`, then `listed`) and re-adds it to the sorted structure; the
model also returns the mutated order, standing for the live object the
caller keeps using. -/
def relist (l : OrderList) (a : OArg) (st : OrderStatus) (now : Nat) :
    Except (Err × OrderList) (Order × OrderList) :=
  match l.resolve a with
  | .error e => Except.error (e, l)
  | .ok o =>
    if st.is_active = false then Except.error (Err.relistNonActiveStatus, l)
    else
      let o1 := { o with status := st, listed := some now, updated := now }
      let l1 := l.store o1
      Except.ok (o1, { l1 with order_list := insertByPrice l1.order_list o1 })

/-- `OrderList.remove` from `structures.py`: purge from the sorted structure
(when active) and from the id table. -/
def remove (l : OrderList) (a : OArg) : Except (Err × OrderList) OrderList :=
  match l.resolve a with
  | .error e => Except.error (e, l)
  | .ok o =>
    if o.status.is_active then
      match l.removeListed o.id with
      | .error e => Except.error (e, l)
      | .ok l1 =>
        if (l1.get o.id).isSome then
          Except.ok { l1 with ids := l1.ids.eraseP (fun p => decide (p.1 = o.id)) }
        else Except.error (Err.keyError, l1)
    else
      if (l.get o.id).isSome then
        Except.ok { l with ids := l.ids.eraseP (fun p => decide (p.1 = o.id)) }
      else Except.error (Err.keyError, l)

/-- `OrderList.expire` from `structures.py`. -/
def expire (l : OrderList) (a : OArg) (now : Nat) : Except (Err × OrderList) OrderList :=
  match l.resolve a with
  | .error e => Except.error (e, l)
  | .ok o =>
    if o.status.is_active = false then Except.error (Err.notActive, l)
    else
      match l.removeListed o.id with
      | .error e => Except.error (e, l)
      | .ok l1 => Except.ok (l1.store { o with status := OrderStatus.expired, updated := now })

/-- `OrderList.cancel` from `structures.py`. -/
def cancel (l : OrderList) (a : OArg) (now : Nat) : Except (Err × OrderList) OrderList :=
  match l.resolve a with
  | .error e => Except.error (e, l)
  | .ok o =>
    if o.status.is_active = false then Except.error (Err.notActive, l)
    else
      match l.removeListed o.id with
      | .error e => Except.error (e, l)
      | .ok l1 => Except.ok (l1.store { o with status := OrderStatus.cancelled, updated := now })

/-- `OrderList.fill` from `structures.py`.  The fill volume is a `Nat`, so
the source's `volume <= 0` guard is the `volume = 0` test.  The model also
returns the mutated order (the live object held by `OrderBook.fill`). -/
def fill (l : OrderList) (a : OArg) (v : Nat) (now : Nat) :
    Except (Err × OrderList) (Order × OrderList) :=
  if v = 0 then Except.error (Err.volumeNotPositive, l)
  else
    match l.resolve a with
    | .error e => Except.error (e, l)
    | .ok o =>
      if o.status.is_active = false then Except.error (Err.notActive, l)
      else if o.volume < v then Except.error (Err.volumeExceedsOrder, l)
      else
        let o1 := { o with volume := o.volume - v, updated := now }
        let l1 := l.store o1
        if o1.volume = 0 then
          match l1.unlist (.byOrder o1) OrderStatus.filled now with
          | .error (e, l2) => Except.error (e, l2)
          | .ok l2 => Except.ok ({ o1 with status := OrderStatus.filled, updated := now }, l2)
        else
          let o2 := { o1 with status := OrderStatus.partFilled, updated := now }
          Except.ok (o2, l1.store o2)

/-- `OrderList.modify` from `structures.py`.  The guard
`any([price <= 0, volume <= 0])` builds the list eagerly, evaluating the
`price` comparison first; comparing `None` with `0` raises `TypeError`,
so any call with an omitted price or volume fails before touching state.
The new volume is a Python int, hence `Option Int` here.  After a
successful guard both options are `some`, so the source's later
`if price is not None` / `if volume is not None` tests are always true.
The `print` warning for inactive orders is a side effect with no state
change.  The model also returns the mutated order. -/
def modify (l : OrderList) (a : OArg) (price : Option ℚ) (volume : Option Int)
    (relist : Bool) (now : Nat) : Except (Err × OrderList) (Order × OrderList) :=
  match price with
  | none => Except.error (Err.typeError, l)
  | some pq =>
    match volume with
    | none => Except.error (Err.typeError, l)
    | some vz =>
      if pq ≤ 0 ∨ vz ≤ 0 then Except.error (Err.priceVolumeNotPositive, l)
      else
        match l.resolve a with
        | .error e => Except.error (e, l)
        | .ok o =>
          let step :=
            if relist then
              if o.status.is_active then
                match l.removeListed o.id with
                | .error e => Except.error (e, l)
                | .ok l1 => Except.ok (true, l1)
              else Except.ok (false, l)
            else Except.ok (false, l)
          match step with
          | .error (e : Err × OrderList) => Except.error e
          | .ok (rl, l1) =>
            match l1.get o.id with
            | none => Except.error (Err.keyError, l1)
            | some o0 =>
              let o1 := { o0 with price := pq, updated := now }
              let l2 := l1.store o1
              let o2 := { o1 with volume := vz.toNat, updated := now }
              let l3 := l2.store o2
              if rl then
                let o3 := { o2 with status := OrderStatus.modified, updated := now }
                let l4 := l3.store o3
                Except.ok (o3, { l4 with order_list := insertByPrice l4.order_list o3 })
              else Except.ok (o2, l3)

/-- `OrderList.bisect_left` at the default `include_right=True`: on the
price-sorted structure, the library binary search returns the leftmost
insertion point for the probe price, and the source keeps the right
segment, i.e. it drops the prefix of strictly cheaper orders. -/
def bisect_left (l : OrderList) (p : ℚ) : List Order :=
  l.order_list.dropWhile (fun x => decide (x.price < p))

/-- `OrderList.bisect_right` at the default `include_left=True`: the
library binary search returns the rightmost insertion point, and the
source keeps the left segment, i.e. the prefix of orders priced at most
the probe price. -/
def bisect_right (l : OrderList) (p : ℚ) : List Order :=
  l.order_list.takeWhile (fun x => decide (x.price ≤ p))

end OrderList

/-- `OrderBook` from `orderbook.py`: the two sides and the trade tape.
The `order_sources` dict is rendered by `OrderBook.sideOf`. -/
structure OrderBook where
  ask : OrderList
  bid : OrderList
  tape : List Trade
deriving DecidableEq, Repr

namespace OrderBook

/-- `self.order_sources[t]`. -/
def sideOf (b : OrderBook) : OrderType → OrderList
  | .ask => b.ask
  | .bid => b.bid

/-- Writing back the mutated side. -/
def setSide (b : OrderBook) : OrderType → OrderList → OrderBook
  | .ask, l => { b with ask := l }
  | .bid, l => { b with bid := l }

/-- `OrderBook.__init__`. -/
def empty : OrderBook :=
  { ask := { order_list := [], ids := [], otype := OrderType.ask }
    bid := { order_list := [], ids := [], otype := OrderType.bid }
    tape := [] }

/-- The key `lambda x: x.listed` of the sort in `OrderBook.match`.
In every book flow the candidates are listed orders, so `listed` is
`some _`; the `getD` default never decides a comparison there. -/
def listedKey (o : Order) : Nat := o.listed.getD 0

/-- One insertion step of the stable sort: place `o` after every element
whose key is at most `o`'s. -/
def insertListed (o : Order) : List Order → List Order
  | [] => [o]
  | x :: xs => if listedKey o < listedKey x then o :: x :: xs else x :: insertListed o xs

/-- Python's `list.sort(key=...)` contract: a stable sort by the key.
Folding `insertListed` from the left preserves the relative order of
equal-keyed elements, which is exactly the stable-sort contract. -/
def sortListed (l : List Order) : List Order :=
  l.foldl (fun acc o => insertListed o acc) []

/-- `OrderBook.match` from `orderbook.py`: price-range query on the
opposite side, then a sort of the candidates by `listed` ascending.
(`matchOrders` because `match` is a Lean keyword.) -/
def matchOrders (b : OrderBook) (o : Order) : List Order :=
  let matched :=
    match o.order_type with
    | .ask => b.bid.bisect_left o.price
    | .bid => b.ask.bisect_right o.price
  sortListed matched

/-- The loop of `OrderBook.fill`.  `st` is the aggressor's side and `ct`
the side taken from `counter_orders[0]`, both fixed before the loop; the
running aggressor object is threaded through as `o`. -/
def fillAux (b : OrderBook) (o : Order) (st ct : OrderType) (cs : List Order) (now : Nat) :
    Except (Err × OrderBook) (Order × OrderBook) :=
  match cs with
  | [] => Except.ok (o, b)
  | c :: rest =>
    let p := c.price
    let v := min o.volume c.volume
    match OrderList.fill (b.sideOf st) (.byOrder o) v now with
    | .error (e, l1) => Except.error (e, b.setSide st l1)
    | .ok (o1, l1) =>
      let b1 := b.setSide st l1
      match OrderList.fill (b1.sideOf ct) (.byOrder c) v now with
      | .error (e, l2) => Except.error (e, b1.setSide ct l2)
      | .ok (_, l2) =>
        let b2 := b1.setSide ct l2
        let b3 := { b2 with tape := b2.tape ++ [⟨o.id, c.id, p, v, now⟩] }
        if o1.status = OrderStatus.filled then Except.ok (o1, b3)
        else fillAux b3 o1 st ct rest now

/-- `OrderBook.fill` from `orderbook.py`: returns immediately on an empty
candidate list, otherwise fixes `source` and `c_source` and runs the loop. -/
def fill (b : OrderBook) (o : Order) (cs : List Order) (now : Nat) :
    Except (Err × OrderBook) OrderBook :=
  match cs with
  | [] => Except.ok b
  | c0 :: _ => (fillAux b o o.order_type c0.order_type cs now).map (fun p => p.2)

/-- `OrderBook.match_fill` from `orderbook.py`. -/
def match_fill (b : OrderBook) (o : Order) (now : Nat) : Except (Err × OrderBook) OrderBook :=
  b.fill o (b.matchOrders o) now

/-- `OrderBook.add` from `orderbook.py`: stamp `listed`, insert into the
owning side (default `tolist="auto"`), then match-and-fill. -/
def add (b : OrderBook) (o : Order) (now : Nat) : Except (Err × OrderBook) OrderBook :=
  let o1 := { o with listed := some now, updated := now }
  match OrderList.add (b.sideOf o1.order_type) o1 Tolist.auto now with
  | .error (e, l1) => Except.error (e, b.setSide o1.order_type l1)
  | .ok l1 => (b.setSide o1.order_type l1).match_fill o1 now

/-- `OrderBook.get_order` from `orderbook.py`.  The first statement of the
source is `order_ = None`, overwriting the argument before any
`isinstance` test; the subsequent dispatch therefore always reaches the
`else` branch and raises "Invalid order type".  The dead branches are kept
to mirror the source. -/
def get_order (b : OrderBook) (a : OArg) (t : OrderType) : Except Err Order :=
  let overwritten : Option OArg := none
  match overwritten with
  | some (OArg.byId i) =>
    match (b.sideOf t).get i with
    | some o => Except.ok o
    | none => Except.error Err.orderNotFound
  | some (OArg.byOrder o) =>
    match (b.sideOf o.order_type).get o.id with
    | some o2 => Except.ok o2
    | none => Except.error Err.orderNotFound
  | none => Except.error Err.invalidOrderType

/-- `OrderBook.search_order` from `orderbook.py`: with a side supplied, or
with an `Order` argument, it delegates to `get_order`; with a bare id it
scans `order_sources.values()` in dict order (ask first, then bid). -/
def search_order (b : OrderBook) (a : OArg) (t : Option OrderType) : Except Err Order :=
  match t with
  | some t0 => b.get_order a t0
  | none =>
    match a with
    | .byOrder o => b.get_order a o.order_type
    | .byId i =>
      match b.ask.get i with
      | some o => Except.ok o
      | none =>
        match b.bid.get i with
        | some o => Except.ok o
        | none => Except.error Err.orderNotFound

/-- `OrderBook.cancel` from `orderbook.py`. -/
def cancel (b : OrderBook) (a : OArg) (t : Option OrderType) (now : Nat) :
    Except (Err × OrderBook) OrderBook :=
  match b.search_order a t with
  | .error e => Except.error (e, b)
  | .ok o =>
    if o.status.is_active = false then Except.error (Err.alreadyCancelledOrExpired, b)
    else
      match OrderList.cancel (b.sideOf o.order_type) (.byOrder o) now with
      | .error (e, l1) => Except.error (e, b.setSide o.order_type l1)
      | .ok l1 => Except.ok (b.setSide o.order_type l1)

/-- `OrderBook.expire` from `orderbook.py`. -/
def expire (b : OrderBook) (a : OArg) (t : Option OrderType) (now : Nat) :
    Except (Err × OrderBook) OrderBook :=
  match b.search_order a t with
  | .error e => Except.error (e, b)
  | .ok o =>
    if o.status.is_active = false then Except.error (Err.alreadyCancelledOrExpired, b)
    else
      match OrderList.expire (b.sideOf o.order_type) (.byOrder o) now with
      | .error (e, l1) => Except.error (e, b.setSide o.order_type l1)
      | .ok l1 => Except.ok (b.setSide o.order_type l1)

/-- `OrderBook.restore` from `orderbook.py`: rejects *active* orders, then
relists (default status `RESTORED`) and re-runs match-and-fill on the
relisted live object. -/
def restore (b : OrderBook) (a : OArg) (t : Option OrderType) (now : Nat) :
    Except (Err × OrderBook) OrderBook :=
  match b.search_order a t with
  | .error e => Except.error (e, b)
  | .ok o =>
    if o.status.is_active then Except.error (Err.alreadyActive, b)
    else
      match OrderList.relist (b.sideOf o.order_type) (.byOrder o) OrderStatus.restored now with
      | .error (e, l1) => Except.error (e, b.setSide o.order_type l1)
      | .ok (o1, l1) => (b.setSide o.order_type l1).match_fill o1 now

/-- `OrderBook.remove_order` from `orderbook.py`. -/
def remove_order (b : OrderBook) (a : OArg) (t : Option OrderType) :
    Except (Err × OrderBook) OrderBook :=
  match b.search_order a t with
  | .error e => Except.error (e, b)
  | .ok o =>
    match OrderList.remove (b.sideOf o.order_type) (.byOrder o) with
    | .error (e, l1) => Except.error (e, b.setSide o.order_type l1)
    | .ok l1 => Except.ok (b.setSide o.order_type l1)

/-- `OrderBook.modify` from `orderbook.py`: resolve, delegate to the side's
`modify` (with its default `relist=True`), then match-and-fill the mutated
live object. -/
def modify (b : OrderBook) (a : OArg) (t : Option OrderType)
    (price : Option ℚ) (volume : Option Int) (now : Nat) :
    Except (Err × OrderBook) OrderBook :=
  match b.search_order a t with
  | .error e => Except.error (e, b)
  | .ok o =>
    match OrderList.modify (b.sideOf o.order_type) (.byOrder o) price volume true now with
    | .error (e, l1) => Except.error (e, b.setSide o.order_type l1)
    | .ok (o1, l1) => (b.setSide o.order_type l1).match_fill o1 now

/-- `OrderBook.proceede` from `orderbook.py`: copy the tape, clear it, and
return the copy. -/
def proceede (b : OrderBook) : List Trade × OrderBook :=
  (b.tape, { b with tape := [] })

end OrderBook

/-! ## Glue: extracting the state from an operation result

A Python exception leaves all mutations made before the raise in place;
these helpers read off the book (or side) state from either exit of an
operation. -/

/-- State after a book operation returning only the book. -/
def outB : Except (Err × OrderBook) OrderBook → OrderBook
  | .ok b => b
  | .error (_, b) => b

/-- State after a book operation returning an order and the book. -/
def outOB : Except (Err × OrderBook) (Order × OrderBook) → OrderBook
  | .ok (_, b) => b
  | .error (_, b) => b

/-- State after a side operation returning only the side. -/
def outL : Except (Err × OrderList) OrderList → OrderList
  | .ok l => l
  | .error (_, l) => l

/-- State after a side operation returning an order and the side. -/
def outOL : Except (Err × OrderList) (Order × OrderList) → OrderList
  | .ok (_, l) => l
  | .error (_, l) => l

/-- The exception (if any) an operation raised. -/
def errOf {σ α : Type} : Except (Err × σ) α → Option Err
  | .ok _ => none
  | .error (e, _) => some e

/-! ## The Book's operation alphabet

One constructor per public `OrderBook` operation, carrying the arguments a
caller would pass plus the `now` timestamp of the call.  `fillOp i` plays
`fill`: in the source, `fill` is invoked (via `match_fill`) on an order
held by the book together with the candidate list computed by `match`, so
the op resolves its id in the book (ask table first, like `search_order`)
and runs `match_fill` on the stored order; an unknown id leaves the book
unchanged. -/
inductive BookOp where
  | addOp (o : Order) (now : Nat)
  | cancelOp (a : OArg) (t : Option OrderType) (now : Nat)
  | expireOp (a : OArg) (t : Option OrderType) (now : Nat)
  | restoreOp (a : OArg) (t : Option OrderType) (now : Nat)
  | modifyOp (a : OArg) (t : Option OrderType) (p : Option ℚ) (v : Option Int) (now : Nat)
  | removeOp (a : OArg) (t : Option OrderType)
  | fillOp (i : Nat) (now : Nat)
  | drainOp
deriving DecidableEq

/-- Apply one operation; the state after an exception is the state at the
raise point. -/
def OrderBook.step (b : OrderBook) : BookOp → OrderBook
  | .addOp o now => outB (b.add o now)
  | .cancelOp a t now => outB (b.cancel a t now)
  | .expireOp a t now => outB (b.expire a t now)
  | .restoreOp a t now => outB (b.restore a t now)
  | .modifyOp a t p v now => outB (b.modify a t p v now)
  | .removeOp a t => outB (b.remove_order a t)
  | .fillOp i now =>
    match b.ask.get i with
    | some o => outB (b.match_fill o now)
    | none =>
      match b.bid.get i with
      | some o => outB (b.match_fill o now)
      | none => b
  | .drainOp => (b.proceede).2

/-- Run a sequence of operations. -/
def OrderBook.run (b : OrderBook) : List BookOp → OrderBook
  | [] => b
  | op :: ops => (b.step op).run ops

/-- An `add` is fresh when the added order's id is not yet in its side's id
table (ids are globally unique in the design: the allocator never reuses
one, so a caller can only ever submit fresh ids). -/
def freshOp (b : OrderBook) : BookOp → Bool
  | .addOp o _ => ((b.sideOf o.order_type).get o.id).isNone
  | _ => true

/-- Every `add` in the sequence is fresh at the point it runs. -/
def freshRun (b : OrderBook) : List BookOp → Bool
  | [] => true
  | op :: ops => freshOp b op && freshRun (b.step op) ops

/-! ## Concrete scenario states -/

/-- C1 scenario: the resting bid listed at `t1 = 1` (price 102, volume 10). -/
def bidT1 : Order := ⟨1, OrderType.bid, 102, 10, 1, OrderStatus.created, 0, 0, none⟩

/-- C1 scenario: the resting bid listed at `t0 = 2` (price 101, volume 4). -/
def bidT0 : Order := ⟨2, OrderType.bid, 101, 4, 1, OrderStatus.created, 0, 0, none⟩

/-- C1 scenario: the incoming ask (price 100, volume 10). -/
def askIn : Order := ⟨3, OrderType.ask, 100, 10, 2, OrderStatus.created, 0, 0, none⟩

/-- C1 scenario: book after submitting the bid listed at `t1 = 1`. -/
def bkA : OrderBook := outB (OrderBook.empty.add bidT1 1)

/-- C1 scenario: book after also submitting the bid listed at `t0 = 2`. -/
def bkB : OrderBook := outB (bkA.add bidT0 2)

/-- The ask as it rests in the book after `OrderBook.add` stamped
`listed = 3`. -/
def askInL : Order := { askIn with listed := some 3, updated := 3 }

/-- C1 scenario: book after submitting the ask at time 3. -/
def bkC : OrderBook := outB (bkB.add askIn 3)

/-- C5/C6/C8 scenario: an ask that will be fully filled. -/
def askOne : Order := ⟨1, OrderType.ask, 100, 5, 1, OrderStatus.created, 0, 0, none⟩

/-- C6/C8 scenario: the bid that fills `askOne` completely. -/
def bidTwo : Order := ⟨2, OrderType.bid, 100, 5, 1, OrderStatus.created, 0, 0, none⟩

/-- C8 scenario: a later resting bid. -/
def bidThree : Order := ⟨3, OrderType.bid, 100, 5, 1, OrderStatus.created, 0, 0, none⟩

/-- Book holding only the resting `askOne`. -/
def bkOne : OrderBook := outB (OrderBook.empty.add askOne 1)

/-- Book after `bidTwo` crossed with `askOne`: both orders are `Filled`. -/
def bkTwo : OrderBook := outB (bkOne.add bidTwo 2)

/-- Book with, additionally, `bidThree` resting on the bid side. -/
def bkThree : OrderBook := outB (bkTwo.add bidThree 3)

/-- C6: state after restoring the `Filled` order 1 in `bkTwo`. -/
def bkRestored : OrderBook := outB (bkTwo.restore (.byId 1) none 4)

/-- C8: state after the failed restore of the `Filled` order 1 in
`bkThree`. -/
def bkBroken : OrderBook := outB (bkThree.restore (.byId 1) none 4)

/-- C5: state after cancelling order 3 of `bkThree` by bare id. -/
def bkCancelled : OrderBook := outB (bkThree.cancel (.byId 3) none 5)

/-- C7: a resting bid sitting alone in a side index. -/
def bidC7 : Order := ⟨7, OrderType.bid, 100, 5, 1, OrderStatus.created, 0, 0, some 1⟩

/-- C7: the side index holding `bidC7`. -/
def sideC7 : OrderList := ⟨[bidC7], [(7, bidC7)], OrderType.bid⟩

/-- C7: the side after a modify that supplies both a new price and a new
volume. -/
def sideC7both : OrderList := outOL (OrderList.modify sideC7 (.byId 7) (some 101) (some 7) true 2)

/-- C5: the book after cancelling order 1 of `bkOne` by bare id. -/
def bkOneCancelled : OrderBook := outB (bkOne.cancel (.byId 1) none 2)

/-!
## Claim theorems
-/

/-! ## Tape lemmas (drain / fill) -/

/-! ## C3 lemmas -/

/-- The side opposite an order's: the side `OrderBook.match` queries. -/
def opposite : OrderType → OrderType
  | .ask => .bid
  | .bid => .ask

/-- Price acceptability of a resting counter-order `x` to an incoming
order `o`: a resting bid priced at least an incoming ask's price, a
resting ask priced at most an incoming bid's price. -/
def acceptablePrice (o x : Order) : Bool :=
  match o.order_type with
  | .ask => decide (o.price ≤ x.price)
  | .bid => decide (x.price ≤ o.price)

/-! ## C2 lemmas -/

/-- Decidable equality of operation results, used to evaluate concrete
runs in witnesses. -/
instance : DecidableEq (Except (Err × OrderBook) (Order × OrderBook)) :=
  fun a b =>
    match a, b with
    | .ok x, .ok y =>
      if h : x = y then isTrue (by rw [h]) else isFalse (by intro hc; cases hc; exact h rfl)
    | .ok _, .error _ => isFalse (by intro hc; cases hc)
    | .error _, .ok _ => isFalse (by intro hc; cases hc)
    | .error x, .error y =>
      if h : x = y then isTrue (by rw [h]) else isFalse (by intro hc; cases hc; exact h rfl)

/-- C2 witness data: the C1 scenario book at the point `OrderBook.fill`
runs: the incoming ask has already been inserted into its own side by
`OrderBook.add`, the two bids rest on the bid side. -/
def bkW : OrderBook := { ask := ⟨[askInL], [(3, askInL)], OrderType.ask⟩, bid := bkB.bid, tape := [] }

/-- C2 witness data: the candidate list computed by `match` in the C1
scenario book. -/
def csW : List Order := bkW.matchOrders askInL

/-- C2 witness data: result of the fill loop on the C1 scenario book. -/
def fillW : Order × OrderBook :=
  match OrderBook.fillAux bkW askInL OrderType.ask OrderType.bid csW 3 with
  | .ok p => p
  | .error (_, bb) => (askInL, bb)

/-! ## C4: the status/index coupling invariant -/

/-- The Side Index well-formedness invariant carried through the induction:
(keys name their orders and carry the side's type; keys are unique; every
listed order is the stored object for its id; listed ids are unique; the
status/index coupling of the claim; the configured type). -/
def SideWF (t : OrderType) (l : OrderList) : Prop :=
  (∀ p ∈ l.ids, p.1 = p.2.id ∧ p.2.order_type = t) ∧
  (l.ids.map Prod.fst).Nodup ∧
  (∀ x ∈ l.order_list, l.get x.id = some x) ∧
  (l.order_list.map Order.id).Nodup ∧
  (∀ p ∈ l.ids, (p.2 ∈ l.order_list ↔ p.2.status.is_active = true)) ∧
  l.otype = t

/-- Book-level well-formedness: both sides well-formed. -/
def BookWF (b : OrderBook) : Prop :=
  SideWF OrderType.ask b.ask ∧ SideWF OrderType.bid b.bid

/-- C4 witness data: an ask that will rest, then partially fill. -/
def wAsk : Order := ⟨1, OrderType.ask, 100, 5, 1, OrderStatus.created, 0, 0, none⟩

/-- C4 witness data: a bid that fully fills against `wAsk`'s remainder. -/
def wBid : Order := ⟨2, OrderType.bid, 100, 3, 2, OrderStatus.created, 0, 0, none⟩

/-- C4 witness data: an operation sequence exercising add, a fill, and a
cancel attempt. -/
def wOps : List BookOp :=
  [BookOp.addOp wAsk 1, BookOp.addOp wBid 2, BookOp.cancelOp (OArg.byId 1) none 3]

/-- C1 (amended): submitting ask(price 100, volume 10) into a book whose
bid side holds bid(price 101, volume 4, listed t0 = 2) and bid(price 102,
volume 10, listed t1 = 1 < t0) computes the candidate set from both bids
sorted by listed time ascending, processes the bid listed at t1 first,
trades 10 units at price 102, fully fills the incoming ask, fully fills
the bid listed at t1 (volume 0, status Filled, removed from the sorted
structure), leaves the bid listed at t0 untouched, and appends exactly one
trade record with price 102 and volume 10. -/
theorem submit_ask_scenario_amended :
    bkB.bid.ids.length = 2 ∧
    bkB.matchOrders askInL =
      [{ bidT1 with listed := some 1, updated := 1 },
       { bidT0 with listed := some 2, updated := 2 }] ∧
    errOf (bkB.add askIn 3) = none ∧
    bkC.tape = [⟨3, 1, 102, 10, 3⟩] ∧
    (bkC.ask.get 3).map (fun o => (o.volume, o.status)) = some (0, OrderStatus.filled) ∧
    (bkC.bid.get 1).map (fun o => (o.volume, o.status)) = some (0, OrderStatus.filled) ∧
    bkC.bid.order_list.map (fun o => o.id) = [2] ∧
    bkC.bid.get 2 = bkB.bid.get 2 := by
  decide

/-- C1 (counterexample): in that very scenario the bid listed at t1 is
*not* left with remaining volume: its volume is 0, its status is Filled,
and it is no longer in the bid side's sorted structure. -/
theorem submit_ask_scenario_counterexample :
    ¬ ((bkC.bid.get 1).map (fun o => decide (0 < o.volume)) = some true) ∧
    (bkC.bid.get 1).map (fun o => o.status) = some OrderStatus.filled ∧
    bkC.bid.order_list.map (fun o => o.id) = [2] := by
  decide

/-- C5: on a book holding the active order 1, `cancel` with the side
argument supplied fails with "Invalid order type" (the `get_order` slip)
instead of resolving the order, for either side value; the id-only path
behaves as specified: unknown ids fail with NotFound, the first cancel
succeeds (status Cancelled, removed from the sorted structure), and a
second cancel fails with NotActive. -/
theorem cancel_with_side_always_fails :
    (bkOne.ask.get 1).map (fun o => o.status.is_active) = some true ∧
    errOf (bkOne.cancel (.byId 1) (some OrderType.ask) 2) = some Err.invalidOrderType ∧
    outB (bkOne.cancel (.byId 1) (some OrderType.ask) 2) = bkOne ∧
    errOf (bkOne.cancel (.byId 1) (some OrderType.bid) 2) = some Err.invalidOrderType ∧
    errOf (bkOne.cancel (.byId 99) none 2) = some Err.orderNotFound ∧
    errOf (bkOne.cancel (.byId 1) none 2) = none ∧
    (bkOneCancelled.ask.get 1).map (fun o => o.status) = some OrderStatus.cancelled ∧
    bkOneCancelled.ask.order_list = [] ∧
    errOf (bkOneCancelled.cancel (.byId 1) none 3) = some Err.alreadyCancelledOrExpired := by
  decide

/-- C6: in `bkTwo` order 1 is Filled with volume 0 and outside the sorted
structure, yet `restore` on it succeeds: it sets the status to Restored
and re-inserts the order (still at volume 0) into the sorted structure,
contradicting the claim that restoring a Filled order must fail and leave
it Filled. -/
theorem restore_filled_succeeds :
    (bkTwo.ask.get 1).map (fun o => (o.status, o.volume)) = some (OrderStatus.filled, 0) ∧
    bkTwo.ask.order_list = [] ∧
    errOf (bkTwo.restore (.byId 1) none 4) = none ∧
    (bkRestored.ask.get 1).map (fun o => (o.status, o.volume)) =
      some (OrderStatus.restored, 0) ∧
    bkRestored.ask.order_list.map (fun o => o.id) = [1] := by
  decide

/-- C7: on a side holding the active order 7, `modify` supplying only a
positive new price (volume omitted) raises TypeError — `None <= 0` inside
the guard `any([price <= 0, volume <= 0])` — instead of updating the
price; likewise with only a volume.  The guard works as specified only
when both fields are supplied: non-positive values fail with InvalidOrder
and positive ones update the order. -/
theorem modify_omitted_field_type_error :
    errOf (OrderList.modify sideC7 (.byId 7) (some 101) none true 2) = some Err.typeError ∧
    outOL (OrderList.modify sideC7 (.byId 7) (some 101) none true 2) = sideC7 ∧
    errOf (OrderList.modify sideC7 (.byId 7) none (some 7) true 2) = some Err.typeError ∧
    errOf (OrderList.modify sideC7 (.byId 7) (some (-1)) (some 7) true 2) =
      some Err.priceVolumeNotPositive ∧
    errOf (OrderList.modify sideC7 (.byId 7) (some 101) (some 0) true 2) =
      some Err.priceVolumeNotPositive ∧
    errOf (OrderList.modify sideC7 (.byId 7) (some 101) (some 7) true 2) = none ∧
    (sideC7both.get 7).map (fun o => (o.price, o.volume, o.status)) =
      some (101, 7, OrderStatus.modified) := by
  decide

/-- C8: a failing Book operation that does *not* leave the book unchanged.
In `bkThree` order 1 is Filled (volume 0) and a bid rests on the opposite
side; `restore(1)` relists order 1 and then raises "Volume must be
positive" inside the re-run match-and-fill, leaving order 1 Restored and
inside the sorted structure: the failed operation mutated the book. -/
theorem restore_partial_mutation :
    errOf (bkThree.restore (.byId 1) none 4) = some Err.volumeNotPositive ∧
    (bkThree.ask.get 1).map (fun o => o.status) = some OrderStatus.filled ∧
    bkThree.ask.order_list = [] ∧
    (bkBroken.ask.get 1).map (fun o => o.status) = some OrderStatus.restored ∧
    bkBroken.ask.order_list.map (fun o => o.id) = [1] ∧
    ¬ (bkBroken = bkThree) := by
  decide

/-- C10: `get_order` overwrites its argument with `None` before any
`isinstance` test, so for every book, every argument (id or order) and
every order type it raises "Invalid order type" and never returns an
order; consequently `search_order` — hence every Book operation resolving
through it — fails the same way whenever a side is supplied or an Order
object is passed. -/
theorem get_order_always_invalid :
    (∀ (b : OrderBook) (a : OArg) (t : OrderType),
      b.get_order a t = Except.error Err.invalidOrderType) ∧
    (∀ (b : OrderBook) (a : OArg) (t : OrderType),
      b.search_order a (some t) = Except.error Err.invalidOrderType) ∧
    (∀ (b : OrderBook) (o : Order),
      b.search_order (.byOrder o) none = Except.error Err.invalidOrderType) :=
  ⟨fun _ _ _ => rfl, fun _ _ _ => rfl, fun _ _ => rfl⟩

lemma setSide_tape (b : OrderBook) (t : OrderType) (l : OrderList) :
    (b.setSide t l).tape = b.tape := by
  cases t <;> rfl

lemma outB_map_snd (r : Except (Err × OrderBook) (Order × OrderBook)) :
    outB (r.map (fun p => p.2)) = outOB r := by
  cases r with
  | ok p => rfl
  | error e => rfl

/-- The fill loop only ever appends to the tape, whether it completes or
raises part-way. -/
lemma fillAux_tape (cs : List Order) (b : OrderBook) (o : Order) (st ct : OrderType) (now : Nat) :
    ∃ ts : List Trade, (outOB (OrderBook.fillAux b o st ct cs now)).tape = b.tape ++ ts := by
  induction cs generalizing b o with
  | nil => exact ⟨[], by simp [OrderBook.fillAux, outOB]⟩
  | cons c rest ih =>
    cases h1 : OrderList.fill (b.sideOf st) (OArg.byOrder o) (min o.volume c.volume) now with
    | error p =>
      obtain ⟨e, l1⟩ := p
      exact ⟨[], by simp [OrderBook.fillAux, h1, outOB, setSide_tape]⟩
    | ok p =>
      obtain ⟨o1, l1⟩ := p
      cases h2 : OrderList.fill ((b.setSide st l1).sideOf ct) (OArg.byOrder c) (min o.volume c.volume) now with
      | error q =>
        obtain ⟨e, l2⟩ := q
        exact ⟨[], by simp [OrderBook.fillAux, h1, h2, outOB, setSide_tape]⟩
      | ok q =>
        obtain ⟨c1, l2⟩ := q
        by_cases h3 : o1.status = OrderStatus.filled
        · refine ⟨[⟨o.id, c.id, c.price, min o.volume c.volume, now⟩], ?_⟩
          simp [OrderBook.fillAux, h1, h2, h3, outOB, setSide_tape]
        · obtain ⟨ts', hts⟩ := ih _ o1
          refine ⟨⟨o.id, c.id, c.price, min o.volume c.volume, now⟩ :: ts', ?_⟩
          simp only [OrderBook.fillAux, h1, h2, if_neg h3]
          rw [hts]
          simp [setSide_tape]

/-- C9: draining the tape returns exactly the accumulated trade records
and clears the tape, so a second drain with no intervening fill returns
the empty sequence and no record is returned twice; and a fill only ever
appends records to the tape, so none is lost or duplicated relative to
draining. -/
theorem drain_tape_spec :
    (∀ b : OrderBook,
      (b.proceede).1 = b.tape ∧
      ((b.proceede).2).tape = [] ∧
      (((b.proceede).2).proceede).1 = []) ∧
    (∀ (b : OrderBook) (o : Order) (cs : List Order) (now : Nat),
      ∃ ts : List Trade, (outB (b.fill o cs now)).tape = b.tape ++ ts) := by
  constructor
  · intro b
    exact ⟨rfl, rfl, rfl⟩
  · intro b o cs now
    cases cs with
    | nil => exact ⟨[], by simp [OrderBook.fill, outB]⟩
    | cons c rest =>
      rw [OrderBook.fill, outB_map_snd]
      exact fillAux_tape (c :: rest) b o o.order_type c.order_type now

lemma insertListed_perm (o : Order) (l : List Order) :
    (OrderBook.insertListed o l).Perm (o :: l) := by
  induction l with
  | nil => simp [OrderBook.insertListed]
  | cons x xs ih =>
    rw [OrderBook.insertListed]
    by_cases h : OrderBook.listedKey o < OrderBook.listedKey x
    · simp [h]
    · simp only [if_neg h]
      exact (ih.cons x).trans (List.Perm.swap o x xs)

lemma foldl_insertListed_perm (l : List Order) :
    ∀ acc : List Order,
      (l.foldl (fun acc o => OrderBook.insertListed o acc) acc).Perm (acc ++ l) := by
  induction l with
  | nil => intro acc; simp
  | cons x xs ih =>
    intro acc
    exact (ih (OrderBook.insertListed x acc)).trans
      (((insertListed_perm x acc).append_right xs).trans List.perm_middle.symm)

lemma sortListed_perm (l : List Order) : (OrderBook.sortListed l).Perm l := by
  simpa using foldl_insertListed_perm l []

lemma mem_insertListed {a o : Order} {l : List Order} :
    a ∈ OrderBook.insertListed o l ↔ a = o ∨ a ∈ l := by
  rw [(insertListed_perm o l).mem_iff]
  simp

lemma insertListed_sorted (o : Order) (l : List Order)
    (h : l.Pairwise (fun a b => OrderBook.listedKey a ≤ OrderBook.listedKey b)) :
    (OrderBook.insertListed o l).Pairwise
      (fun a b => OrderBook.listedKey a ≤ OrderBook.listedKey b) := by
  induction l with
  | nil => simp [OrderBook.insertListed]
  | cons x xs ih =>
    rw [OrderBook.insertListed]
    rcases List.pairwise_cons.mp h with ⟨hx, hxs⟩
    by_cases hlt : OrderBook.listedKey o < OrderBook.listedKey x
    · rw [if_pos hlt]
      refine List.pairwise_cons.mpr ⟨?_, h⟩
      intro y hy
      rcases List.mem_cons.mp hy with rfl | hy2
      · exact Nat.le_of_lt hlt
      · exact (Nat.le_of_lt hlt).trans (hx y hy2)
    · rw [if_neg hlt]
      refine List.pairwise_cons.mpr ⟨?_, ih hxs⟩
      intro y hy
      rcases mem_insertListed.mp hy with rfl | hy2
      · exact Nat.le_of_not_lt hlt
      · exact hx y hy2

lemma foldl_insertListed_sorted (l : List Order) :
    ∀ acc : List Order,
      acc.Pairwise (fun a b => OrderBook.listedKey a ≤ OrderBook.listedKey b) →
      (l.foldl (fun acc o => OrderBook.insertListed o acc) acc).Pairwise
        (fun a b => OrderBook.listedKey a ≤ OrderBook.listedKey b) := by
  induction l with
  | nil => intro acc h; simpa using h
  | cons x xs ih =>
    intro acc h
    exact ih (OrderBook.insertListed x acc) (insertListed_sorted x acc h)

lemma sortListed_sorted (l : List Order) :
    (OrderBook.sortListed l).Pairwise
      (fun a b => OrderBook.listedKey a ≤ OrderBook.listedKey b) :=
  foldl_insertListed_sorted l [] (by simp)

lemma dropWhile_lt_eq_filter (p : ℚ) (l : List Order)
    (h : l.Pairwise (fun a b => a.price ≤ b.price)) :
    l.dropWhile (fun x => decide (x.price < p)) = l.filter (fun x => decide (p ≤ x.price)) := by
  induction l with
  | nil => rfl
  | cons x xs ih =>
    rcases List.pairwise_cons.mp h with ⟨hx, hxs⟩
    by_cases hlt : x.price < p
    · rw [List.dropWhile_cons_of_pos (by simpa using hlt),
        List.filter_cons_of_neg (by simpa using not_le.mpr hlt)]
      exact ih hxs
    · rw [List.dropWhile_cons_of_neg (by simpa using hlt),
        List.filter_cons_of_pos (by simpa using not_lt.mp hlt)]
      congr 1
      symm
      rw [List.filter_eq_self]
      intro y hy
      simpa using (not_lt.mp hlt).trans (hx y hy)

lemma takeWhile_le_eq_filter (p : ℚ) (l : List Order)
    (h : l.Pairwise (fun a b => a.price ≤ b.price)) :
    l.takeWhile (fun x => decide (x.price ≤ p)) = l.filter (fun x => decide (x.price ≤ p)) := by
  induction l with
  | nil => rfl
  | cons x xs ih =>
    rcases List.pairwise_cons.mp h with ⟨hx, hxs⟩
    by_cases hle : x.price ≤ p
    · rw [List.takeWhile_cons_of_pos (by simpa using hle),
        List.filter_cons_of_pos (by simpa using hle)]
      exact congrArg (x :: ·) (ih hxs)
    · rw [List.takeWhile_cons_of_neg (by simpa using hle),
        List.filter_cons_of_neg (by simpa using hle)]
      symm
      rw [List.filter_eq_nil_iff]
      intro y hy
      simpa using fun hc => hle ((hx y hy).trans hc)

/-- C3: when the opposite side's sorted structure is price-sorted and all
its members are active (the Side Index invariants), `match` returns
exactly the resting orders of the opposite side whose price is acceptable
to the incoming order - as a permutation of that filtered set, every
returned order active - sorted by listed timestamp ascending. -/
theorem match_candidates_spec (b : OrderBook) (o : Order)
    (hsorted : ((b.sideOf (opposite o.order_type)).order_list).Pairwise
      (fun a c => a.price ≤ c.price))
    (hactive : ∀ x ∈ (b.sideOf (opposite o.order_type)).order_list,
      x.status.is_active = true) :
    (b.matchOrders o).Perm
      (((b.sideOf (opposite o.order_type)).order_list).filter (acceptablePrice o)) ∧
    (∀ x ∈ b.matchOrders o, x.status.is_active = true) ∧
    (b.matchOrders o).Pairwise
      (fun a c => OrderBook.listedKey a ≤ OrderBook.listedKey c) := by
  have hmain :
      (b.matchOrders o).Perm
        (((b.sideOf (opposite o.order_type)).order_list).filter (acceptablePrice o)) := by
    cases ho : o.order_type with
    | ask =>
      have hb : (b.sideOf (opposite OrderType.ask)) = b.bid := rfl
      rw [OrderBook.matchOrders, ho]
      have heq : b.bid.bisect_left o.price =
          b.bid.order_list.filter (fun x => decide (o.price ≤ x.price)) := by
        rw [OrderList.bisect_left]
        exact dropWhile_lt_eq_filter o.price b.bid.order_list (by rw [ho] at hsorted; exact hsorted)
      rw [heq]
      have hfun : (acceptablePrice o) = fun x => decide (o.price ≤ x.price) := by
        funext x
        simp [acceptablePrice, ho]
      rw [hfun]
      exact sortListed_perm _
    | bid =>
      rw [OrderBook.matchOrders, ho]
      have heq : b.ask.bisect_right o.price =
          b.ask.order_list.filter (fun x => decide (x.price ≤ o.price)) := by
        rw [OrderList.bisect_right]
        exact takeWhile_le_eq_filter o.price b.ask.order_list (by rw [ho] at hsorted; exact hsorted)
      rw [heq]
      have hfun : (acceptablePrice o) = fun x => decide (x.price ≤ o.price) := by
        funext x
        simp [acceptablePrice, ho]
      rw [hfun]
      exact sortListed_perm _
  refine ⟨hmain, ?_, ?_⟩
  · intro x hx
    have := hmain.mem_iff.mp hx
    exact hactive x (List.mem_of_mem_filter this)
  · rw [OrderBook.matchOrders]
    cases o.order_type <;> exact sortListed_sorted _

/-- Witness for `match_candidates_spec`: the C1 book `bkB` (two resting
bids, price-sorted, both active) probed with the incoming ask. -/
theorem match_candidates_spec_witness :
    (bkB.matchOrders askInL).Perm
      (((bkB.sideOf (opposite askInL.order_type)).order_list).filter (acceptablePrice askInL)) ∧
    (∀ x ∈ bkB.matchOrders askInL, x.status.is_active = true) ∧
    (bkB.matchOrders askInL).Pairwise
      (fun a c => OrderBook.listedKey a ≤ OrderBook.listedKey c) :=
  match_candidates_spec bkB askInL (by decide) (by decide)

lemma find?_store_ids (ids : List (Nat × Order)) (o : Order) (i : Nat) :
    (ids.map (fun p => if p.1 = o.id then (p.1, o) else p)).find? (fun p => decide (p.1 = i)) =
    (ids.find? (fun p => decide (p.1 = i))).map
      (fun p => if p.1 = o.id then (p.1, o) else p) := by
  rw [List.find?_map]
  have hpred : ((fun p => decide (p.1 = i)) ∘ fun p : Nat × Order =>
      if p.1 = o.id then (p.1, o) else p) = (fun p : Nat × Order => decide (p.1 = i)) := by
    funext p
    by_cases h : p.1 = o.id <;> simp [h]
  rw [hpred]

lemma store_get_self (l : OrderList) (o : Order) (x : Order)
    (h : l.get o.id = some x) : (l.store o).get o.id = some o := by
  rw [OrderList.get] at h ⊢
  rw [OrderList.store]
  simp only [find?_store_ids]
  rcases hf : l.ids.find? (fun p => decide (p.1 = o.id)) with _ | p
  · rw [hf] at h
    simp at h
  · have hp : p.1 = o.id := by
      have := List.find?_some hf
      simpa using this
    rw [hf]
    simp [hp]

lemma store_get_other (l : OrderList) (o : Order) (j : Nat) (hj : j ≠ o.id) :
    (l.store o).get j = l.get j := by
  rw [OrderList.get, OrderList.get, OrderList.store]
  simp only [find?_store_ids]
  rcases hf : l.ids.find? (fun p => decide (p.1 = j)) with _ | p
  · rw [hf]
    rfl
  · have hp : p.1 = j := by
      have := List.find?_some hf
      simpa using this
    have hno : ¬ (p.1 = o.id) := by rw [hp]; exact hj
    rw [hf]
    simp [hno]

lemma removeListed_ids (l : OrderList) (i : Nat) (l1 : OrderList)
    (h : l.removeListed i = Except.ok l1) : l1.ids = l.ids := by
  rw [OrderList.removeListed] at h
  split at h
  · cases h
    rfl
  · cases h

lemma unlist_ok_get_other (l : OrderList) (o : Order) (st : OrderStatus) (now : Nat)
    (l1 : OrderList) (h : l.unlist (.byOrder o) st now = Except.ok l1) :
    ∀ j : Nat, j ≠ o.id → l1.get j = l.get j := by
  simp only [OrderList.unlist, OrderList.resolve] at h
  split at h
  · cases h
  · split at h
    · cases h
    · cases hrem : l.removeListed o.id with
      | error e =>
        rw [hrem] at h
        cases h
      | ok lr =>
        rw [hrem] at h
        cases h
        have hids := removeListed_ids l o.id lr hrem
        intro j hj
        rw [store_get_other lr { o with status := st, updated := now } j hj,
          OrderList.get, hids]
        rfl

lemma unlist_ok_get_self (l : OrderList) (o : Order) (st : OrderStatus) (now : Nat)
    (l1 : OrderList) (h : l.unlist (.byOrder o) st now = Except.ok l1)
    (x : Order) (hx : l.get o.id = some x) :
    l1.get o.id = some { o with status := st, updated := now } := by
  simp only [OrderList.unlist, OrderList.resolve] at h
  split at h
  · cases h
  · split at h
    · cases h
    · cases hrem : l.removeListed o.id with
      | error e =>
        rw [hrem] at h
        cases h
      | ok lr =>
        rw [hrem] at h
        cases h
        have hids := removeListed_ids l o.id lr hrem
        have hgr : lr.get o.id = some x := by
          rw [OrderList.get, hids]
          exact hx
        exact store_get_self lr { o with status := st, updated := now } x hgr

lemma fill_ok_facts (l : OrderList) (c : Order) (v now : Nat) (c1 : Order) (l1 : OrderList)
    (h : OrderList.fill l (.byOrder c) v now = Except.ok (c1, l1)) :
    c1.id = c.id ∧ c1.volume = c.volume - v ∧ v ≤ c.volume ∧
    (∀ j : Nat, j ≠ c.id → l1.get j = l.get j) ∧
    (∀ x : Order, l.get c.id = some x → l1.get c.id = some c1) := by
  simp only [OrderList.fill, OrderList.resolve] at h
  by_cases hv : v = 0
  · rw [if_pos hv] at h
    cases h
  rw [if_neg hv] at h
  by_cases hact : c.status.is_active = false
  · rw [if_pos hact] at h
    cases h
  rw [if_neg hact] at h
  by_cases hvol : c.volume < v
  · rw [if_pos hvol] at h
    cases h
  rw [if_neg hvol] at h
  by_cases hz : c.volume - v = 0
  · rw [if_pos hz] at h
    cases hun : (l.store { c with volume := c.volume - v, updated := now }).unlist
        (.byOrder { c with volume := c.volume - v, updated := now })
        OrderStatus.filled now with
    | error p =>
      rw [hun] at h
      cases h
    | ok l2 =>
      rw [hun] at h
      cases h
      refine ⟨rfl, rfl, Nat.le_of_not_lt hvol, ?_, ?_⟩
      · intro j hj
        rw [unlist_ok_get_other _ _ _ _ _ hun j hj]
        exact store_get_other l { c with volume := c.volume - v, updated := now } j hj
      · intro x hx
        have h1 : (l.store { c with volume := c.volume - v, updated := now }).get c.id =
            some { c with volume := c.volume - v, updated := now } :=
          store_get_self l { c with volume := c.volume - v, updated := now } x hx
        exact unlist_ok_get_self _ _ _ _ _ hun _ h1
  · rw [if_neg hz] at h
    cases h
    refine ⟨rfl, rfl, Nat.le_of_not_lt hvol, ?_, ?_⟩
    · intro j hj
      rw [store_get_other
        (l.store { c with volume := c.volume - v, updated := now })
        { c with volume := c.volume - v, status := OrderStatus.partFilled, updated := now } j hj]
      exact store_get_other l { c with volume := c.volume - v, updated := now } j hj
    · intro x hx
      have h1 : (l.store { c with volume := c.volume - v, updated := now }).get c.id =
          some { c with volume := c.volume - v, updated := now } :=
        store_get_self l { c with volume := c.volume - v, updated := now } x hx
      exact store_get_self
        (l.store { c with volume := c.volume - v, updated := now })
        { c with volume := c.volume - v, status := OrderStatus.partFilled, updated := now }
        { c with volume := c.volume - v, updated := now } h1

lemma sideOf_setSide_same (b : OrderBook) (t : OrderType) (l : OrderList) :
    (b.setSide t l).sideOf t = l := by
  cases t <;> rfl

lemma sideOf_setSide_other (b : OrderBook) (t t2 : OrderType) (l : OrderList) (h : t2 ≠ t) :
    (b.setSide t l).sideOf t2 = b.sideOf t2 := by
  cases t <;> cases t2 <;> first | rfl | exact absurd rfl h

lemma sideOf_tape_update (b : OrderBook) (t : OrderType) (x : List Trade) :
    ({ b with tape := x } : OrderBook).sideOf t = b.sideOf t := by
  cases t <;> rfl

/-- C2: volume conservation of the fill loop.  For every successful run of
the loop over a candidate sequence `cs` (each candidate stored on the
counter side `ct`, candidate ids distinct, counter side distinct from the
aggressor's side `st` - all guaranteed by `match`), the loop appends
trades `ts` to the tape such that the aggressor's remaining volume plus
the total traded volume equals its volume before the loop; the i-th trade
trades exactly `min` of the aggressor's and the i-th resting order's
volumes immediately before that trade (hence at most either), records the
resting order's id and price, and the resting order's stored volume
decreases by exactly that trade's volume; resting orders not traded with
are untouched. -/
theorem fill_loop_volume_conservation (b : OrderBook) (o : Order) (st ct : OrderType)
    (cs : List Order) (now : Nat) (o' : Order) (b' : OrderBook)
    (hok : OrderBook.fillAux b o st ct cs now = Except.ok (o', b'))
    (hside : st ≠ ct)
    (hids : (cs.map Order.id).Nodup)
    (hstored : ∀ c ∈ cs, (b.sideOf ct).get c.id = some c) :
    ∃ ts : List Trade,
      b'.tape = b.tape ++ ts ∧
      ts.length ≤ cs.length ∧
      o'.volume + (ts.map Trade.volume).sum = o.volume ∧
      (∀ j : Nat, (∀ c ∈ cs, c.id ≠ j) → (b'.sideOf ct).get j = (b.sideOf ct).get j) ∧
      (∀ i : Nat, (hi : i < ts.length) → (hic : i < cs.length) →
        (ts.get ⟨i, hi⟩).volume =
          min (o.volume - ((ts.take i).map Trade.volume).sum) (cs.get ⟨i, hic⟩).volume ∧
        (ts.get ⟨i, hi⟩).contr_order = (cs.get ⟨i, hic⟩).id ∧
        (ts.get ⟨i, hi⟩).price = (cs.get ⟨i, hic⟩).price ∧
        ∃ c2 : Order, (b'.sideOf ct).get (cs.get ⟨i, hic⟩).id = some c2 ∧
          c2.volume = (cs.get ⟨i, hic⟩).volume - (ts.get ⟨i, hi⟩).volume) := by
  induction cs generalizing b o with
  | nil =>
    simp only [OrderBook.fillAux, Except.ok.injEq, Prod.mk.injEq] at hok
    obtain ⟨rfl, rfl⟩ := hok
    refine ⟨[], by simp, by simp, by simp, fun j _ => rfl, ?_⟩
    intro i hi
    exact absurd hi (by simp)
  | cons c rest ih =>
    simp only [OrderBook.fillAux] at hok
    cases h1 : OrderList.fill (b.sideOf st) (.byOrder o) (min o.volume c.volume) now with
    | error p =>
      rw [h1] at hok
      cases hok
    | ok po =>
      obtain ⟨o1, l1⟩ := po
      simp only [h1] at hok
      cases h2 : OrderList.fill ((b.setSide st l1).sideOf ct) (.byOrder c)
          (min o.volume c.volume) now with
      | error q =>
        simp only [h2] at hok
        cases hok
      | ok qc =>
        obtain ⟨cc1, l2⟩ := qc
        simp only [h2] at hok
        have hctside : (b.setSide st l1).sideOf ct = b.sideOf ct :=
          sideOf_setSide_other b st ct l1 (Ne.symm hside)
        obtain ⟨hoid, hovol, hole, hoget_other, hoget_self⟩ := fill_ok_facts _ _ _ _ _ _ h1
        obtain ⟨hcid, hcvol, hcle, hcget_other, hcget_self⟩ := fill_ok_facts _ _ _ _ _ _ h2
        have hstoredc : ((b.setSide st l1).sideOf ct).get c.id = some c := by
          rw [hctside]
          exact hstored c (List.mem_cons_self c rest)
        have hl2c : l2.get c.id = some cc1 := hcget_self c hstoredc
        have hl2other : ∀ j : Nat, j ≠ c.id → l2.get j = (b.sideOf ct).get j := by
          intro j hj
          rw [hcget_other j hj, hctside]
        have hrest_ne : ∀ c2 ∈ rest, c2.id ≠ c.id := by
          intro c2 hc2
          have hnd := List.nodup_cons.mp hids
          intro hcontra
          exact hnd.1 (hcontra ▸ List.mem_map_of_mem Order.id hc2)
        -- the book after this iteration, tape appended
        by_cases h3 : o1.status = OrderStatus.filled
        · rw [if_pos h3] at hok
          simp only [Except.ok.injEq, Prod.mk.injEq] at hok
          obtain ⟨rfl, rfl⟩ := hok
          refine ⟨[⟨o.id, c.id, c.price, min o.volume c.volume, now⟩], ?_, by simp, ?_, ?_, ?_⟩
          · simp [setSide_tape]
          · simp only [List.map_cons, List.map_nil, List.sum_cons, List.sum_nil]
            omega
          · intro j hj
            have hjc : j ≠ c.id := fun hc => hj c (List.mem_cons_self c rest) hc.symm
            rw [sideOf_tape_update, sideOf_setSide_same]
            exact hl2other j hjc
          · intro i hi hic
            have hi0 : i = 0 := Nat.lt_one_iff.mp (by exact hi)
            subst hi0
            refine ⟨by simp, by simp, by simp, cc1, ?_, by simpa using hcvol⟩
            rw [sideOf_tape_update, sideOf_setSide_same]
            simpa using hl2c
        · rw [if_neg h3] at hok
          have hstored' : ∀ c2 ∈ rest,
              ((({ ((b.setSide st l1).setSide ct l2) with
                tape := ((b.setSide st l1).setSide ct l2).tape ++
                  [⟨o.id, c.id, c.price, min o.volume c.volume, now⟩] } : OrderBook)).sideOf ct).get c2.id =
              some c2 := by
            intro c2 hc2
            rw [sideOf_tape_update, sideOf_setSide_same]
            rw [hl2other c2.id (hrest_ne c2 hc2)]
            exact hstored c2 (List.mem_cons_of_mem c hc2)
          obtain ⟨ts', htape, hlen, hsum, huntouched, hidx⟩ :=
            ih _ o1 hok (List.nodup_cons.mp hids).2 hstored'
          refine ⟨⟨o.id, c.id, c.price, min o.volume c.volume, now⟩ :: ts', ?_, ?_, ?_, ?_, ?_⟩
          · rw [htape]
            simp [setSide_tape]
          · simpa using Nat.succ_le_succ hlen
          · simp only [List.map_cons, List.sum_cons]
            rw [hovol] at hsum
            omega
          · intro j hj
            have hjc : j ≠ c.id := fun hc => hj c (List.mem_cons_self c rest) hc.symm
            rw [huntouched j (fun c2 hc2 => hj c2 (List.mem_cons_of_mem c hc2))]
            rw [sideOf_tape_update, sideOf_setSide_same]
            exact hl2other j hjc
          · intro i hi hic
            cases i with
            | zero =>
              refine ⟨by simp, by simp, by simp, cc1, ?_, by simpa using hcvol⟩
              have hget := huntouched c.id (fun c2 hc2 => hrest_ne c2 hc2)
              simp only [sideOf_tape_update, sideOf_setSide_same] at hget
              simpa [hget] using hl2c
            | succ i2 =>
              have hi2 : i2 < ts'.length := by simpa using hi
              have hic2 : i2 < rest.length := by simpa using hic
              obtain ⟨hvol2, hco2, hpr2, c2, hc2get, hc2vol⟩ := hidx i2 hi2 hic2
              refine ⟨?_, by simpa using hco2, by simpa using hpr2, c2, by simpa using hc2get,
                by simpa using hc2vol⟩
              simp only [List.get_cons_succ, List.take_succ_cons, List.map_cons, List.sum_cons]
              rw [hvol2, hovol]
              congr 1
              omega

/-- Witness for `fill_loop_volume_conservation` at the C1 scenario. -/
theorem fill_loop_volume_conservation_witness :
    ∃ ts : List Trade,
      fillW.2.tape = bkW.tape ++ ts ∧
      ts.length ≤ csW.length ∧
      fillW.1.volume + (ts.map Trade.volume).sum = askInL.volume ∧
      (∀ j : Nat, (∀ c ∈ csW, c.id ≠ j) →
        (fillW.2.sideOf OrderType.bid).get j = (bkW.sideOf OrderType.bid).get j) ∧
      (∀ i : Nat, (hi : i < ts.length) → (hic : i < csW.length) →
        (ts.get ⟨i, hi⟩).volume =
          min (askInL.volume - ((ts.take i).map Trade.volume).sum) (csW.get ⟨i, hic⟩).volume ∧
        (ts.get ⟨i, hi⟩).contr_order = (csW.get ⟨i, hic⟩).id ∧
        (ts.get ⟨i, hi⟩).price = (csW.get ⟨i, hic⟩).price ∧
        ∃ c2 : Order, (fillW.2.sideOf OrderType.bid).get (csW.get ⟨i, hic⟩).id = some c2 ∧
          c2.volume = (csW.get ⟨i, hic⟩).volume - (ts.get ⟨i, hi⟩).volume) :=
  fill_loop_volume_conservation bkW askInL OrderType.ask OrderType.bid csW 3 fillW.1 fillW.2
    (by decide) (by decide) (by decide) (by decide)

lemma get_eq_some_mem (l : OrderList) (i : Nat) (o : Order) (h : l.get i = some o) :
    (i, o) ∈ l.ids := by
  rw [OrderList.get] at h
  rcases hf : l.ids.find? (fun p => decide (p.1 = i)) with _ | p
  · rw [hf] at h
    cases h
  · rw [hf] at h
    have hkey : p.1 = i := by simpa using List.find?_some hf
    have hval : p.2 = o := by simpa using h
    have : p = (i, o) := by
      cases p
      simp only at hkey hval
      rw [hkey, hval]
    exact this ▸ List.mem_of_find?_eq_some hf

lemma get_none_keys (l : OrderList) (i : Nat) (h : l.get i = none) :
    ∀ p ∈ l.ids, p.1 ≠ i := by
  rw [OrderList.get] at h
  rcases hf : l.ids.find? (fun p => decide (p.1 = i)) with _ | p
  · intro p hp
    have := List.find?_eq_none.mp hf p hp
    simpa using this
  · rw [hf] at h
    cases h

lemma nodup_keys_eq (ids : List (Nat × Order)) (hnd : (ids.map Prod.fst).Nodup)
    (p q : Nat × Order) (hp : p ∈ ids) (hq : q ∈ ids) (h : p.1 = q.1) : p = q := by
  induction ids with
  | nil => cases hp
  | cons r rest ih =>
    rw [List.map_cons, List.nodup_cons] at hnd
    rcases List.mem_cons.mp hp with rfl | hp2
    · rcases List.mem_cons.mp hq with rfl | hq2
      · rfl
      · exact absurd (h ▸ List.mem_map_of_mem Prod.fst hq2) hnd.1
    · rcases List.mem_cons.mp hq with rfl | hq2
      · exact absurd (h ▸ List.mem_map_of_mem Prod.fst hp2) hnd.1
      · exact ih hnd.2 hp2 hq2

lemma get_of_mem (l : OrderList) (hnd : (l.ids.map Prod.fst).Nodup)
    (p : Nat × Order) (hp : p ∈ l.ids) : l.get p.1 = some p.2 := by
  rw [OrderList.get]
  rcases hf : l.ids.find? (fun q => decide (q.1 = p.1)) with _ | q
  · have := List.find?_eq_none.mp hf p hp
    simp at this
  · have hq : q ∈ l.ids := List.mem_of_find?_eq_some hf
    have hkey : q.1 = p.1 := by simpa using List.find?_some hf
    rw [hf]
    rw [nodup_keys_eq l.ids hnd q p hq hp hkey]
    rfl

lemma store_SideWF (t : OrderType) (l : OrderList) (hwf : SideWF t l)
    (x o2 : Order) (hget : l.get o2.id = some x) (htype : o2.order_type = t)
    (hstat : x ∈ l.order_list ↔ o2.status.is_active = true) :
    SideWF t (l.store o2) := by
  obtain ⟨ha, hb, hc, hd, he, hf⟩ := hwf
  have hxid : o2.id = x.id := (ha (o2.id, x) (get_eq_some_mem l o2.id x hget)).1
  refine ⟨?_, ?_, ?_, ?_, ?_, hf⟩
  · intro p' hp'
    rcases List.mem_map.mp hp' with ⟨p, hp, rfl⟩
    by_cases hpid : p.1 = o2.id
    · simp only [if_pos hpid]
      exact ⟨hpid, htype⟩
    · simp only [if_neg hpid]
      exact ha p hp
  · have : (l.ids.map (fun p => if p.1 = o2.id then (p.1, o2) else p)).map Prod.fst =
        l.ids.map Prod.fst := by
      rw [List.map_map]
      refine List.map_congr_left ?_
      intro p _
      by_cases hpid : p.1 = o2.id <;> simp [hpid]
    rw [OrderList.store]
    simp only
    rw [this]
    exact hb
  · intro y hy
    rcases List.mem_map.mp hy with ⟨x1, hx1, rfl⟩
    by_cases hxid1 : x1.id = o2.id
    · simp only [if_pos hxid1]
      exact store_get_self l o2 x hget
    · simp only [if_neg hxid1]
      rw [store_get_other l o2 x1.id hxid1]
      exact hc x1 hx1
  · have : ((l.store o2).order_list).map Order.id = l.order_list.map Order.id := by
      rw [OrderList.store]
      simp only
      rw [List.map_map]
      refine List.map_congr_left ?_
      intro x1 _
      by_cases hxid1 : x1.id = o2.id <;> simp [hxid1]
    rw [OrderList.store] at this ⊢
    simp only at this ⊢
    rw [this]
    exact hd
  · intro p' hp'
    rcases List.mem_map.mp hp' with ⟨p, hp, rfl⟩
    by_cases hpid : p.1 = o2.id
    · simp only [if_pos hpid]
      constructor
      · intro hmem
        rcases List.mem_map.mp hmem with ⟨x1, hx1, hgx1⟩
        by_cases hxid1 : x1.id = o2.id
        · rw [if_pos hxid1] at hgx1
          have : l.get x1.id = some x1 := hc x1 hx1
          rw [hxid1, hget] at this
          have hx1x : x1 = x := by
            injection this with h2
            exact h2.symm
          exact hstat.mp (hx1x ▸ hx1)
        · rw [if_neg hxid1] at hgx1
          exact absurd (hgx1 ▸ hxid1) (by simp)
      · intro hact
        have hxmem : x ∈ l.order_list := hstat.mpr hact
        refine List.mem_map.mpr ⟨x, hxmem, ?_⟩
        rw [if_pos hxid.symm]
    · simp only [if_neg hpid]
      have hpid2 : p.2.id ≠ o2.id := by
        rw [← (ha p hp).1]
        exact hpid
      constructor
      · intro hmem
        rcases List.mem_map.mp hmem with ⟨x1, hx1, hgx1⟩
        by_cases hxid1 : x1.id = o2.id
        · rw [if_pos hxid1] at hgx1
          have hcon : p.2.id = o2.id := by rw [← hgx1]
          exact absurd hcon hpid2
        · rw [if_neg hxid1] at hgx1
          exact (he p hp).mp (hgx1 ▸ hx1)
      · intro hact
        refine List.mem_map.mpr ⟨p.2, (he p hp).mpr hact, ?_⟩
        rw [if_neg hpid2]

lemma insertByPrice_perm (l : List Order) (o : Order) :
    (OrderList.insertByPrice l o).Perm (o :: l) := by
  induction l with
  | nil => simp [OrderList.insertByPrice]
  | cons x xs ih =>
    rw [OrderList.insertByPrice]
    by_cases h : o.price < x.price
    · simp [h]
    · simp only [if_neg h]
      exact (ih.cons x).trans (List.Perm.swap o x xs)

lemma mem_insertByPrice {a o : Order} {l : List Order} :
    a ∈ OrderList.insertByPrice l o ↔ a = o ∨ a ∈ l := by
  rw [(insertByPrice_perm l o).mem_iff]
  simp

lemma eraseP_id_no_left (L : List Order) (i : Nat) (hd : (L.map Order.id).Nodup) :
    ∀ y ∈ L.eraseP (fun x => decide (x.id = i)), y.id ≠ i := by
  induction L with
  | nil => intro y hy; cases hy
  | cons x xs ih =>
    rw [List.map_cons, List.nodup_cons] at hd
    by_cases hx : x.id = i
    · rw [List.eraseP_cons_of_pos (by simpa using hx)]
      intro y hy hyi
      refine hd.1 ?_
      have hmem := List.mem_map_of_mem Order.id hy
      rw [hyi] at hmem
      rw [hx]
      exact hmem
    · rw [List.eraseP_cons_of_neg (by simpa using hx)]
      intro y hy
      rcases List.mem_cons.mp hy with rfl | hy2
      · exact hx
      · exact ih hd.2 y hy2

lemma mem_eraseP_id_iff {y : Order} (L : List Order) (i : Nat) (hy : y.id ≠ i) :
    y ∈ L.eraseP (fun x => decide (x.id = i)) ↔ y ∈ L := by
  constructor
  · exact fun h => List.mem_of_mem_eraseP h
  · intro h
    exact (List.mem_eraseP_of_neg (by simpa using hy)).mpr h

lemma removeListed_ok_shape (l : OrderList) (i : Nat) (l1 : OrderList)
    (h : l.removeListed i = Except.ok l1) :
    l1.order_list = l.order_list.eraseP (fun x => decide (x.id = i)) ∧ l1.ids = l.ids ∧
    l1.otype = l.otype := by
  rw [OrderList.removeListed] at h
  split at h
  · cases h
    exact ⟨rfl, rfl, rfl⟩
  · cases h

lemma map_replace_id (L : List Order) (o2 : Order)
    (hno : ∀ y ∈ L, y.id ≠ o2.id) :
    L.map (fun x => if x.id = o2.id then o2 else x) = L := by
  have h1 : L.map (fun x => if x.id = o2.id then o2 else x) = L.map (fun x => x) :=
    List.map_congr_left (fun y hy => if_neg (hno y hy))
  rw [h1]
  exact List.map_id' L

lemma remove_store_SideWF (t : OrderType) (l : OrderList) (hwf : SideWF t l)
    (o : Order) (hget : l.get o.id = some o) (st' : OrderStatus)
    (hina : st'.is_active = false) (now : Nat) (l1 : OrderList)
    (hrem : l.removeListed o.id = Except.ok l1) :
    SideWF t (l1.store { o with status := st', updated := now }) := by
  obtain ⟨ha, hb, hc, hd, he, hf⟩ := hwf
  obtain ⟨hL1, hI1, hT1⟩ := removeListed_ok_shape l o.id l1 hrem
  have hnol1 : ∀ y ∈ l1.order_list, y.id ≠ o.id := by
    rw [hL1]
    exact eraseP_id_no_left l.order_list o.id hd
  have hmemids : (o.id, o) ∈ l.ids := get_eq_some_mem l o.id o hget
  have htype : o.order_type = t := (ha (o.id, o) hmemids).2
  have hlist : (l1.store { o with status := st', updated := now }).order_list = l1.order_list := by
    rw [OrderList.store]
    exact map_replace_id l1.order_list _ hnol1
  have hot : (l1.store { o with status := st', updated := now }).otype = t := by
    rw [OrderList.store]
    simp only
    rw [hT1]
    exact hf
  refine ⟨?_, ?_, ?_, ?_, ?_, hot⟩
  · intro p' hp'
    rcases List.mem_map.mp hp' with ⟨p, hp, rfl⟩
    rw [hI1] at hp
    by_cases hpid : p.1 = o.id
    · simp only [if_pos hpid]
      exact ⟨hpid, htype⟩
    · simp only [if_neg hpid]
      exact ha p hp
  · have hkeys : ((l1.store { o with status := st', updated := now }).ids).map Prod.fst =
        l.ids.map Prod.fst := by
      rw [OrderList.store]
      simp only
      rw [hI1, List.map_map]
      refine List.map_congr_left ?_
      intro p _
      by_cases hpid : p.1 = o.id <;> simp [hpid]
    rw [hkeys]
    exact hb
  · intro y hy
    rw [hlist] at hy
    have hyne : y.id ≠ o.id := hnol1 y hy
    rw [store_get_other l1 { o with status := st', updated := now } y.id hyne,
      OrderList.get, hI1]
    have hyL : y ∈ l.order_list := by
      rw [hL1] at hy
      exact List.mem_of_mem_eraseP hy
    exact hc y hyL
  · rw [hlist, hL1]
    exact hd.sublist (List.Sublist.map Order.id (List.eraseP_sublist l.order_list))
  · intro p' hp'
    rcases List.mem_map.mp hp' with ⟨p, hp, rfl⟩
    rw [hI1] at hp
    rw [hlist]
    by_cases hpid : p.1 = o.id
    · simp only [if_pos hpid]
      constructor
      · intro hmem
        exact absurd rfl (hnol1 { o with status := st', updated := now } hmem)
      · intro hact
        have hact2 : st'.is_active = true := hact
        rw [hina] at hact2
        cases hact2
    · simp only [if_neg hpid]
      have hpid2 : p.2.id ≠ o.id := by
        rw [← (ha p hp).1]
        exact hpid
      rw [hL1, mem_eraseP_id_iff l.order_list o.id hpid2]
      exact he p hp

lemma cancel_SideWF (t : OrderType) (l : OrderList) (hwf : SideWF t l)
    (o : Order) (hget : l.get o.id = some o) (now : Nat) :
    SideWF t (outL (OrderList.cancel l (.byOrder o) now)) := by
  simp only [OrderList.cancel, OrderList.resolve]
  by_cases hact : o.status.is_active = false
  · rw [if_pos hact]
    exact hwf
  · rw [if_neg hact]
    cases hrem : l.removeListed o.id with
    | error e =>
      simp only [hrem, outL]
      exact hwf
    | ok l1 =>
      simp only [hrem, outL]
      exact remove_store_SideWF t l hwf o hget OrderStatus.cancelled rfl now l1 hrem

lemma expire_SideWF (t : OrderType) (l : OrderList) (hwf : SideWF t l)
    (o : Order) (hget : l.get o.id = some o) (now : Nat) :
    SideWF t (outL (OrderList.expire l (.byOrder o) now)) := by
  simp only [OrderList.expire, OrderList.resolve]
  by_cases hact : o.status.is_active = false
  · rw [if_pos hact]
    exact hwf
  · rw [if_neg hact]
    cases hrem : l.removeListed o.id with
    | error e =>
      simp only [hrem, outL]
      exact hwf
    | ok l1 =>
      simp only [hrem, outL]
      exact remove_store_SideWF t l hwf o hget OrderStatus.expired rfl now l1 hrem

lemma fill_SideWF (t : OrderType) (l : OrderList) (hwf : SideWF t l)
    (o : Order) (hget : l.get o.id = some o) (v now : Nat) :
    SideWF t (outOL (OrderList.fill l (.byOrder o) v now)) := by
  simp only [OrderList.fill, OrderList.resolve]
  by_cases hv : v = 0
  · rw [if_pos hv]
    exact hwf
  rw [if_neg hv]
  by_cases hact : o.status.is_active = false
  · rw [if_pos hact]
    exact hwf
  rw [if_neg hact]
  by_cases hvol : o.volume < v
  · rw [if_pos hvol]
    exact hwf
  rw [if_neg hvol]
  have htype : o.order_type = t := (hwf.1 (o.id, o) (get_eq_some_mem l o.id o hget)).2
  have hmemiff : o ∈ l.order_list ↔ o.status.is_active = true :=
    hwf.2.2.2.2.1 (o.id, o) (get_eq_some_mem l o.id o hget)
  have hoactive : o.status.is_active = true := by
    cases hcase : o.status.is_active with
    | true => rfl
    | false => exact absurd hcase hact
  have hwf1 : SideWF t (l.store { o with volume := o.volume - v, updated := now }) := by
    refine store_SideWF t l hwf o { o with volume := o.volume - v, updated := now } hget htype ?_
    rw [hmemiff]
  have hget1 : (l.store { o with volume := o.volume - v, updated := now }).get o.id =
      some { o with volume := o.volume - v, updated := now } :=
    store_get_self l { o with volume := o.volume - v, updated := now } o hget
  by_cases hz : o.volume - v = 0
  · rw [if_pos hz]
    -- unlist path
    simp only [OrderList.unlist, OrderList.resolve]
    rw [if_neg (by simpa using hoactive)]
    rw [if_neg (by simp [OrderStatus.is_active])]
    cases hrem : (l.store { o with volume := o.volume - v, updated := now }).removeListed o.id with
    | error e =>
      simp only [hrem, outOL, outL]
      exact hwf1
    | ok lr =>
      simp only [hrem, outOL, outL]
      exact remove_store_SideWF t _ hwf1 { o with volume := o.volume - v, updated := now }
        hget1 OrderStatus.filled rfl now lr hrem
  · rw [if_neg hz]
    simp only [outOL]
    refine store_SideWF t _ hwf1 { o with volume := o.volume - v, updated := now }
      { o with volume := o.volume - v, status := OrderStatus.partFilled, updated := now }
      hget1 htype ?_
    have hmem1 := hwf1.2.2.2.2.1 ((o.id : Nat), { o with volume := o.volume - v, updated := now })
      (get_eq_some_mem _ o.id _ hget1)
    dsimp only at hmem1
    rw [hmem1]
    constructor
    · intro _
      rfl
    · intro _
      exact hoactive

lemma get_ids_eq (l l2 : OrderList) (h : l.ids = l2.ids) (i : Nat) : l.get i = l2.get i := by
  rw [OrderList.get, OrderList.get, h]

lemma insert_after_store_SideWF (t : OrderType) (l : OrderList)
    (ha : ∀ p ∈ l.ids, p.1 = p.2.id ∧ p.2.order_type = t)
    (hb : (l.ids.map Prod.fst).Nodup)
    (hc : ∀ x ∈ l.order_list, l.get x.id = some x)
    (hd : (l.order_list.map Order.id).Nodup)
    (hf : l.otype = t)
    (o o1 : Order) (hget : l.get o.id = some o) (hid : o1.id = o.id)
    (htype1 : o1.order_type = t) (hact1 : o1.status.is_active = true)
    (hnotin : o ∉ l.order_list)
    (heOther : ∀ p ∈ l.ids, p.1 ≠ o.id → (p.2 ∈ l.order_list ↔ p.2.status.is_active = true)) :
    SideWF t { l.store o1 with
      order_list := OrderList.insertByPrice (l.store o1).order_list o1 } := by
  have hnoid : ∀ y ∈ l.order_list, y.id ≠ o.id := by
    intro y hy hyid
    have hg := hc y hy
    rw [hyid, hget] at hg
    injection hg with hyo
    exact hnotin (hyo ▸ hy)
  have hnoid1 : ∀ y ∈ l.order_list, y.id ≠ o1.id := by
    intro y hy
    rw [hid]
    exact hnoid y hy
  have hget1 : l.get o1.id = some o := by
    rw [hid]
    exact hget
  have hlist1 : (l.store o1).order_list = l.order_list := map_replace_id l.order_list o1 hnoid1
  have hgid : ∀ i : Nat, ({ l.store o1 with
      order_list := OrderList.insertByPrice (l.store o1).order_list o1 } : OrderList).get i =
      (l.store o1).get i := fun i => rfl
  refine ⟨?_, ?_, ?_, ?_, ?_, ?_⟩
  · intro p' hp'
    rcases List.mem_map.mp hp' with ⟨p, hp, rfl⟩
    by_cases hpid : p.1 = o1.id
    · simp only [if_pos hpid]
      exact ⟨hpid, htype1⟩
    · simp only [if_neg hpid]
      exact ha p hp
  · have hkeys : ((l.store o1).ids).map Prod.fst = l.ids.map Prod.fst := by
      rw [OrderList.store]
      simp only
      rw [List.map_map]
      refine List.map_congr_left ?_
      intro p _
      by_cases hpid : p.1 = o1.id <;> simp [hpid]
    show ((l.store o1).ids.map Prod.fst).Nodup
    rw [hkeys]
    exact hb
  · intro y hy
    rw [hgid y.id]
    simp only [hlist1] at hy
    rcases mem_insertByPrice.mp hy with heq | hy2
    · rw [heq]
      exact store_get_self l o1 o hget1
    · rw [store_get_other l o1 y.id (hnoid1 y hy2)]
      exact hc y hy2
  · show ((OrderList.insertByPrice (l.store o1).order_list o1).map Order.id).Nodup
    rw [hlist1]
    have hperm := (insertByPrice_perm l.order_list o1).map Order.id
    rw [List.Perm.nodup_iff hperm]
    rw [List.map_cons, List.nodup_cons]
    refine ⟨?_, hd⟩
    intro hmm
    rcases List.mem_map.mp hmm with ⟨y, hy, hyid⟩
    exact hnoid1 y hy hyid
  · intro p' hp'
    rcases List.mem_map.mp hp' with ⟨p, hp, rfl⟩
    show _ ∈ OrderList.insertByPrice (l.store o1).order_list o1 ↔ _
    rw [hlist1]
    by_cases hpid : p.1 = o1.id
    · simp only [if_pos hpid]
      constructor
      · intro _
        exact hact1
      · intro _
        exact mem_insertByPrice.mpr (Or.inl rfl)
    · simp only [if_neg hpid]
      have hpid2 : p.2.id ≠ o1.id := by
        rw [← (ha p hp).1]
        exact hpid
      have hpido : p.1 ≠ o.id := by
        rw [← hid]
        exact hpid
      constructor
      · intro hmem
        rcases mem_insertByPrice.mp hmem with heq | hmem2
        · exact absurd (by rw [heq]) hpid2
        · exact (heOther p hp hpido).mp hmem2
      · intro hact
        exact mem_insertByPrice.mpr (Or.inr ((heOther p hp hpido).mpr hact))
  · show (l.store o1).otype = t
    rw [OrderList.store]
    exact hf

lemma relist_SideWF (t : OrderType) (l : OrderList) (hwf : SideWF t l)
    (o : Order) (hget : l.get o.id = some o) (st' : OrderStatus) (now : Nat)
    (hina : o.status.is_active = false) :
    SideWF t (outOL (OrderList.relist l (.byOrder o) st' now)) := by
  simp only [OrderList.relist, OrderList.resolve]
  by_cases hst : st'.is_active = false
  · rw [if_pos hst]
    exact hwf
  rw [if_neg hst]
  have hstact : st'.is_active = true := by
    cases hcase : st'.is_active with
    | true => rfl
    | false => exact absurd hcase hst
  have htype : o.order_type = t := ((hwf.1) (o.id, o) (get_eq_some_mem l o.id o hget)).2
  obtain ⟨ha, hb, hc, hd, he, hf⟩ := hwf
  have hnotin : o ∉ l.order_list := by
    intro hmem
    rw [(he (o.id, o) (get_eq_some_mem l o.id o hget)).mp hmem] at hina
    cases hina
  exact insert_after_store_SideWF t l ha hb hc hd hf o
    { o with status := st', listed := some now, updated := now } hget rfl htype hstact hnotin
    (fun p hp _ => he p hp)

lemma get_find?_none (l : OrderList) (i : Nat) (h : l.get i = none) :
    l.ids.find? (fun p => decide (p.1 = i)) = none := by
  rw [OrderList.get] at h
  rcases hf : l.ids.find? (fun p => decide (p.1 = i)) with _ | p
  · exact hf
  · rw [hf] at h
    cases h

lemma get_append_pres (l : OrderList) (E : List (Nat × Order)) (j : Nat) (y : Order)
    (h : l.get j = some y) :
    OrderList.get ⟨l.order_list, l.ids ++ E, l.otype⟩ j = some y := by
  rw [OrderList.get] at h ⊢
  simp only
  rw [List.find?_append]
  rcases hf : l.ids.find? (fun p => decide (p.1 = j)) with _ | p
  · rw [hf] at h
    cases h
  · rw [hf] at h
    rw [hf]
    exact h

lemma get_append_fresh (l : OrderList) (o1 : Order) (h : l.get o1.id = none) :
    OrderList.get ⟨l.order_list, l.ids ++ [(o1.id, o1)], l.otype⟩ o1.id = some o1 := by
  rw [OrderList.get]
  simp only
  rw [List.find?_append, get_find?_none l o1.id h]
  simp [List.find?]

lemma setId_fresh (l : OrderList) (i : Nat) (o1 : Order) (h : l.get i = none) :
    OrderList.setId l.ids i o1 = l.ids ++ [(i, o1)] := by
  rw [OrderList.setId]
  rw [if_neg]
  rw [List.any_eq_true]
  push_neg
  intro p hp
  simpa using get_none_keys l i h p hp

lemma add_SideWF (t : OrderType) (l : OrderList) (hwf : SideWF t l)
    (o : Order) (hfresh : l.get o.id = none) (now : Nat) :
    SideWF t (outL (OrderList.add l o Tolist.auto now)) := by
  obtain ⟨ha, hb, hc, hd, he, hf⟩ := hwf
  rw [OrderList.add]
  by_cases hty : o.order_type ≠ l.otype
  · rw [if_pos hty]
    exact ⟨ha, hb, hc, hd, he, hf⟩
  rw [if_neg hty]
  push_neg at hty
  have htype : o.order_type = t := hty.trans hf
  have hnokey : ∀ p ∈ l.ids, p.1 ≠ o.id := get_none_keys l o.id hfresh
  have hnolist : ∀ y ∈ l.order_list, y.id ≠ o.id := by
    intro y hy hyid
    have hg := hc y hy
    rw [hyid, hfresh] at hg
    cases hg
  have hkeysnd : ((l.ids ++ [(o.id, o)]).map Prod.fst).Nodup ∨ True := Or.inr trivial
  by_cases hact : o.status.is_active = true
  · rw [if_pos hact]
    simp only [outL]
    set o1 : Order := if o.listed = none then { o with listed := some now, updated := now }
      else o with ho1def
    have ho1id : o1.id = o.id := by
      rw [ho1def]
      split <;> rfl
    have ho1ty : o1.order_type = o.order_type := by
      rw [ho1def]
      split <;> rfl
    have ho1st : o1.status = o.status := by
      rw [ho1def]
      split <;> rfl
    have hsetid : OrderList.setId l.ids o1.id o1 = l.ids ++ [(o1.id, o1)] := by
      rw [ho1id]
      exact setId_fresh l o.id o1 hfresh
    rw [hsetid]
    have hfresh1 : l.get o1.id = none := by
      rw [ho1id]
      exact hfresh
    refine ⟨?_, ?_, ?_, ?_, ?_, hf⟩
    · intro p hp
      rcases List.mem_append.mp hp with hp2 | hp2
      · exact ha p hp2
      · rcases List.mem_singleton.mp hp2 with rfl
        exact ⟨rfl, ho1ty.trans htype⟩
    · rw [List.map_append]
      rw [List.nodup_append]
      refine ⟨hb, List.nodup_singleton _, ?_⟩
      intro k hk hk2
      rcases List.mem_map.mp hk with ⟨p, hp, rfl⟩
      have hk3 : p.1 = o1.id := by simpa using hk2
      exact hnokey p hp (by rw [hk3, ho1id])
    · intro y hy
      rcases mem_insertByPrice.mp hy with heq | hy2
      · rw [heq]
        exact get_append_fresh l o1 hfresh1
      · exact get_append_pres l [(o1.id, o1)] y.id y (hc y hy2)
    · have hperm := (insertByPrice_perm l.order_list o1).map Order.id
      rw [List.Perm.nodup_iff hperm, List.map_cons, List.nodup_cons]
      refine ⟨?_, hd⟩
      intro hmm
      rcases List.mem_map.mp hmm with ⟨y, hy, hyid⟩
      exact hnolist y hy (by rw [← ho1id]; exact hyid)
    · intro p hp
      rcases List.mem_append.mp hp with hp2 | hp2
      · have hpid : p.2.id ≠ o1.id := by
          rw [ho1id, ← (ha p hp2).1]
          exact hnokey p hp2
        constructor
        · intro hmem
          rcases mem_insertByPrice.mp hmem with heq | hmem2
          · exact absurd (by rw [heq]) hpid
          · exact (he p hp2).mp hmem2
        · intro hact2
          exact mem_insertByPrice.mpr (Or.inr ((he p hp2).mpr hact2))
      · rcases List.mem_singleton.mp hp2 with rfl
        constructor
        · intro _
          rw [ho1st]
          exact hact
        · intro _
          exact mem_insertByPrice.mpr (Or.inl rfl)
  · rw [if_neg hact]
    simp only [outL]
    have hsetid : OrderList.setId l.ids o.id o = l.ids ++ [(o.id, o)] :=
      setId_fresh l o.id o hfresh
    rw [hsetid]
    refine ⟨?_, ?_, ?_, ?_, ?_, hf⟩
    · intro p hp
      rcases List.mem_append.mp hp with hp2 | hp2
      · exact ha p hp2
      · rcases List.mem_singleton.mp hp2 with rfl
        exact ⟨rfl, htype⟩
    · rw [List.map_append, List.nodup_append]
      refine ⟨hb, List.nodup_singleton _, ?_⟩
      intro k hk hk2
      rcases List.mem_map.mp hk with ⟨p, hp, rfl⟩
      simp only [List.map_cons, List.map_nil] at hk2
      exact hnokey p hp (List.mem_singleton.mp hk2)
    · intro y hy
      exact get_append_pres l [(o.id, o)] y.id y (hc y hy)
    · exact hd
    · intro p hp
      rcases List.mem_append.mp hp with hp2 | hp2
      · exact he p hp2
      · rcases List.mem_singleton.mp hp2 with rfl
        constructor
        · intro hmem
          exact absurd rfl (hnolist o hmem)
        · intro hact2
          exact absurd hact2 hact

lemma find?_eraseP_other (ids : List (Nat × Order)) (i j : Nat) (hij : j ≠ i) :
    (ids.eraseP (fun p => decide (p.1 = i))).find? (fun p => decide (p.1 = j)) =
    ids.find? (fun p => decide (p.1 = j)) := by
  induction ids with
  | nil => rfl
  | cons r rest ih =>
    by_cases hr : r.1 = i
    · rw [List.eraseP_cons_of_pos (by simpa using hr)]
      rw [List.find?_cons_of_neg rest (by simp only [decide_eq_true_eq, hr]; exact fun hc => hij hc.symm)]
    · rw [List.eraseP_cons_of_neg (by simpa using hr)]
      by_cases hrj : r.1 = j
      · rw [List.find?_cons_of_pos _ (by simpa using hrj),
          List.find?_cons_of_pos _ (by simpa using hrj)]
      · rw [List.find?_cons_of_neg _ (by simpa using hrj),
          List.find?_cons_of_neg _ (by simpa using hrj)]
        exact ih

lemma eraseP_keys_no (ids : List (Nat × Order)) (i : Nat)
    (hnd : (ids.map Prod.fst).Nodup) :
    ∀ p ∈ ids.eraseP (fun q => decide (q.1 = i)), p.1 ≠ i := by
  induction ids with
  | nil => intro p hp; cases hp
  | cons r rest ih =>
    rw [List.map_cons, List.nodup_cons] at hnd
    by_cases hr : r.1 = i
    · rw [List.eraseP_cons_of_pos (by simpa using hr)]
      intro p hp hpi
      refine hnd.1 ?_
      have hmem := List.mem_map_of_mem Prod.fst hp
      rw [hpi] at hmem
      rw [hr]
      exact hmem
    · rw [List.eraseP_cons_of_neg (by simpa using hr)]
      intro p hp
      rcases List.mem_cons.mp hp with rfl | hp2
      · exact hr
      · exact ih hnd.2 p hp2

lemma erase_ids_SideWF_parts (t : OrderType) (l : OrderList) (hwf : SideWF t l)
    (o : Order) (hget : l.get o.id = some o) (L : List Order)
    (hLsub : ∀ y ∈ L, y ∈ l.order_list)
    (hLno : ∀ y ∈ L, y.id ≠ o.id)
    (hLmem : ∀ p ∈ l.ids, p.1 ≠ o.id → (p.2 ∈ L ↔ p.2 ∈ l.order_list))
    (hLnd : (L.map Order.id).Nodup) :
    SideWF t ⟨L, l.ids.eraseP (fun p => decide (p.1 = o.id)), l.otype⟩ := by
  obtain ⟨ha, hb, hc, hd, he, hf⟩ := hwf
  have hsub : ∀ p ∈ l.ids.eraseP (fun q => decide (q.1 = o.id)), p ∈ l.ids := by
    intro p hp
    exact List.mem_of_mem_eraseP hp
  have hkeyno := eraseP_keys_no l.ids o.id hb
  refine ⟨?_, ?_, ?_, ?_, ?_, hf⟩
  · intro p hp
    exact ha p (hsub p hp)
  · refine hb.sublist ?_
    exact List.Sublist.map Prod.fst (List.eraseP_sublist l.ids)
  · intro y hy
    rw [OrderList.get]
    simp only
    rw [find?_eraseP_other l.ids o.id y.id (hLno y hy)]
    have := hc y (hLsub y hy)
    rw [OrderList.get] at this
    exact this
  · exact hLnd
  · intro p hp
    have hpids := hsub p hp
    have hpkey := hkeyno p hp
    rw [hLmem p hpids hpkey]
    exact he p hpids

lemma remove_SideWF (t : OrderType) (l : OrderList) (hwf : SideWF t l)
    (o : Order) (hget : l.get o.id = some o) :
    SideWF t (outL (OrderList.remove l (.byOrder o))) := by
  obtain ⟨ha, hb, hc, hd, he, hf⟩ := hwf
  simp only [OrderList.remove, OrderList.resolve]
  by_cases hact : o.status.is_active
  · rw [if_pos hact]
    cases hrem : l.removeListed o.id with
    | error e =>
      simp only [hrem, outL]
      exact ⟨ha, hb, hc, hd, he, hf⟩
    | ok l1 =>
      simp only [hrem]
      obtain ⟨hL1, hI1, hT1⟩ := removeListed_ok_shape l o.id l1 hrem
      have hsome : (l1.get o.id).isSome := by
        rw [get_ids_eq l1 l hI1, hget]
        rfl
      rw [if_pos hsome]
      simp only [outL]
      have hres : SideWF t ⟨l1.order_list,
          l.ids.eraseP (fun p => decide (p.1 = o.id)), l.otype⟩ := by
        refine erase_ids_SideWF_parts t l ⟨ha, hb, hc, hd, he, hf⟩ o hget l1.order_list ?_ ?_ ?_ ?_
        · intro y hy
          rw [hL1] at hy
          exact List.mem_of_mem_eraseP hy
        · rw [hL1]
          exact eraseP_id_no_left l.order_list o.id hd
        · intro p hp hpk
          rw [hL1]
          have hpid2 : p.2.id ≠ o.id := by
            rw [← (ha p hp).1]
            exact hpk
          exact mem_eraseP_id_iff l.order_list o.id hpid2
        · rw [hL1]
          exact hd.sublist (List.Sublist.map Order.id (List.eraseP_sublist l.order_list))
      have hshape : ({ l1 with ids := l1.ids.eraseP (fun p => decide (p.1 = o.id)) } : OrderList) =
          ⟨l1.order_list, l.ids.eraseP (fun p => decide (p.1 = o.id)), l.otype⟩ := by
        rw [hI1, hT1]
      rw [hshape]
      exact hres
  · rw [if_neg hact]
    have hsome : (l.get o.id).isSome := by
      rw [hget]
      rfl
    rw [if_pos hsome]
    simp only [outL]
    have hono : ∀ y ∈ l.order_list, y.id ≠ o.id := by
      intro y hy hyid
      have hg := hc y hy
      rw [hyid, hget] at hg
      injection hg with hyo
      have hmem : o ∈ l.order_list := hyo ▸ hy
      have := (he (o.id, o) (get_eq_some_mem l o.id o hget)).mp hmem
      rw [this] at hact
      exact hact rfl
    have hres : SideWF t ⟨l.order_list,
        l.ids.eraseP (fun p => decide (p.1 = o.id)), l.otype⟩ := by
      refine erase_ids_SideWF_parts t l ⟨ha, hb, hc, hd, he, hf⟩ o hget l.order_list
        (fun y hy => hy) hono (fun p hp hpk => Iff.rfl) hd
    have hshape : ({ l with ids := l.ids.eraseP (fun p => decide (p.1 = o.id)) } : OrderList) =
        ⟨l.order_list, l.ids.eraseP (fun p => decide (p.1 = o.id)), l.otype⟩ := rfl
    rw [hshape]
    exact hres

lemma modify_SideWF (t : OrderType) (l : OrderList) (hwf : SideWF t l)
    (o : Order) (hget : l.get o.id = some o) (price : Option ℚ) (volume : Option Int)
    (now : Nat) :
    SideWF t (outOL (OrderList.modify l (.byOrder o) price volume true now)) := by
  cases price with
  | none =>
    rw [OrderList.modify.eq_def]
    exact hwf
  | some pq =>
    cases volume with
    | none =>
      rw [OrderList.modify.eq_def]
      exact hwf
    | some vz =>
      rw [OrderList.modify.eq_def]
      simp only [OrderList.resolve]
      by_cases hguard : pq ≤ 0 ∨ vz ≤ 0
      · rw [if_pos hguard]
        exact hwf
      rw [if_neg hguard]
      simp only [if_true]
      obtain ⟨ha, hb, hc, hd, he, hf⟩ := hwf
      have hmemids : (o.id, o) ∈ l.ids := get_eq_some_mem l o.id o hget
      have htype : o.order_type = t := (ha (o.id, o) hmemids).2
      by_cases hact : o.status.is_active = true
      · rw [if_pos hact]
        cases hrem : l.removeListed o.id with
        | error e =>
          simp only [hrem, outOL]
          exact ⟨ha, hb, hc, hd, he, hf⟩
        | ok l1 =>
          simp only [hrem]
          obtain ⟨hL1, hI1, hT1⟩ := removeListed_ok_shape l o.id l1 hrem
          have hgetl1 : l1.get o.id = some o := by
            rw [get_ids_eq l1 l hI1]
            exact hget
          simp only [hgetl1]
          simp only [outOL]
          -- the erased side l1 satisfies the component facts
          have ha1 : ∀ p ∈ l1.ids, p.1 = p.2.id ∧ p.2.order_type = t := by
            rw [hI1]
            exact ha
          have hb1 : (l1.ids.map Prod.fst).Nodup := by
            rw [hI1]
            exact hb
          have hc1 : ∀ x ∈ l1.order_list, l1.get x.id = some x := by
            intro y hy
            rw [get_ids_eq l1 l hI1]
            rw [hL1] at hy
            exact hc y (List.mem_of_mem_eraseP hy)
          have hd1 : (l1.order_list.map Order.id).Nodup := by
            rw [hL1]
            exact hd.sublist (List.Sublist.map Order.id (List.eraseP_sublist l.order_list))
          have hf1 : l1.otype = t := by
            rw [hT1]
            exact hf
          have hnotin1 : o ∉ l1.order_list := by
            rw [hL1]
            intro hmm
            exact eraseP_id_no_left l.order_list o.id hd o hmm rfl
          have heOther1 : ∀ p ∈ l1.ids, p.1 ≠ o.id →
              (p.2 ∈ l1.order_list ↔ p.2.status.is_active = true) := by
            intro p hp hpk
            rw [hI1] at hp
            rw [hL1]
            have hpid2 : p.2.id ≠ o.id := by
              rw [← (ha p hp).1]
              exact hpk
            rw [mem_eraseP_id_iff l.order_list o.id hpid2]
            exact he p hp
          have hnoid1 : ∀ y ∈ l1.order_list, y.id ≠ o.id := by
            rw [hL1]
            exact eraseP_id_no_left l.order_list o.id hd
          set a1 : Order := { o with price := pq, updated := now } with ha1d
          set a2 : Order := { o with price := pq, volume := vz.toNat, updated := now } with ha2d
          set a3 : Order := { o with price := pq, volume := vz.toNat, status := OrderStatus.modified, updated := now } with ha3d
          have hkey := insert_after_store_SideWF t l1 ha1 hb1 hc1 hd1 hf1 o a3
            hgetl1 rfl htype rfl hnotin1 heOther1
          have hno1 : ∀ y ∈ l1.order_list, y.id ≠ a1.id := fun y hy => hnoid1 y hy
          have hno2 : ∀ y ∈ l1.order_list, y.id ≠ a2.id := fun y hy => hnoid1 y hy
          have hno3 : ∀ y ∈ l1.order_list, y.id ≠ a3.id := fun y hy => hnoid1 y hy
          have hA1 : (l1.store a1).order_list = l1.order_list :=
            map_replace_id l1.order_list a1 hno1
          have hA2 : ((l1.store a1).store a2).order_list = l1.order_list := by
            have hstep : ((l1.store a1).store a2).order_list =
                (l1.store a1).order_list.map (fun x => if x.id = a2.id then a2 else x) := rfl
            rw [hstep, hA1]
            exact map_replace_id l1.order_list a2 hno2
          have hol : (((l1.store a1).store a2).store a3).order_list =
              (l1.store a3).order_list := by
            have hstep : (((l1.store a1).store a2).store a3).order_list =
                ((l1.store a1).store a2).order_list.map
                  (fun x => if x.id = a3.id then a3 else x) := rfl
            have hstep2 : (l1.store a3).order_list =
                l1.order_list.map (fun x => if x.id = a3.id then a3 else x) := rfl
            rw [hstep, hstep2, hA2]
          have hids : (((l1.store a1).store a2).store a3).ids = (l1.store a3).ids := by
            show ((l1.ids.map (fun p => if p.1 = a1.id then (p.1, a1) else p)).map
                (fun p => if p.1 = a2.id then (p.1, a2) else p)).map
                (fun p => if p.1 = a3.id then (p.1, a3) else p) =
              l1.ids.map (fun p => if p.1 = a3.id then (p.1, a3) else p)
            rw [List.map_map, List.map_map]
            refine List.map_congr_left ?_
            intro p _
            by_cases hp : p.1 = o.id
            · simp [ha1d, ha2d, ha3d, hp]
            · simp [ha1d, ha2d, ha3d, hp]
          rw [hol, hids]
          exact hkey
      · rw [if_neg hact]
        simp only [hget]
        simp only [outOL]
        have hnotin : o ∉ l.order_list := by
          intro hmm
          rw [(he (o.id, o) hmemids).mp hmm] at hact
          exact hact rfl
        have hstat1 : o ∈ l.order_list ↔
            ({ o with price := pq, updated := now } : Order).status.is_active = true :=
          he (o.id, o) hmemids
        have hwf1 : SideWF t (l.store { o with price := pq, updated := now }) :=
          store_SideWF t l ⟨ha, hb, hc, hd, he, hf⟩ o
            { o with price := pq, updated := now } hget htype hstat1
        have hget1 : (l.store { o with price := pq, updated := now }).get o.id =
            some { o with price := pq, updated := now } :=
          store_get_self l { o with price := pq, updated := now } o hget
        have hmem1 : ((o.id : Nat), ({ o with price := pq, updated := now } : Order)) ∈
            (l.store { o with price := pq, updated := now }).ids :=
          get_eq_some_mem _ o.id _ hget1
        have hstat2 : ({ o with price := pq, updated := now } : Order) ∈
            (l.store { o with price := pq, updated := now }).order_list ↔
            ({ o with price := pq, volume := vz.toNat, updated := now } : Order).status.is_active
              = true := by
          have := hwf1.2.2.2.2.1 _ hmem1
          dsimp only at this
          exact this
        exact store_SideWF t _ hwf1 { o with price := pq, updated := now }
          { o with price := pq, volume := vz.toNat, updated := now } hget1 htype hstat2

lemma sideOf_WF (b : OrderBook) (hwf : BookWF b) (t : OrderType) :
    SideWF t (b.sideOf t) := by
  cases t
  · exact hwf.1
  · exact hwf.2

lemma setSide_BookWF (b : OrderBook) (t : OrderType) (l : OrderList)
    (hwf : BookWF b) (hl : SideWF t l) : BookWF (b.setSide t l) := by
  cases t
  · exact ⟨hl, hwf.2⟩
  · exact ⟨hwf.1, hl⟩

lemma tape_BookWF (b : OrderBook) (x : List Trade) (hwf : BookWF b) :
    BookWF { b with tape := x } := hwf

lemma search_ok_stored (b : OrderBook) (hwf : BookWF b) (a : OArg) (t : Option OrderType)
    (o : Order) (h : b.search_order a t = Except.ok o) :
    (b.sideOf o.order_type).get o.id = some o := by
  rw [OrderBook.search_order.eq_def] at h
  cases t with
  | some t0 =>
    dsimp only at h
    rw [show b.get_order a t0 = Except.error Err.invalidOrderType from rfl] at h
    cases h
  | none =>
    cases a with
    | byOrder o2 =>
      dsimp only at h
      rw [show b.get_order (OArg.byOrder o2) o2.order_type =
        Except.error Err.invalidOrderType from rfl] at h
      cases h
    | byId i =>
      dsimp only at h
      cases hask : b.ask.get i with
      | some oa =>
        simp only [hask] at h
        injection h with ho
        subst ho
        have hmem : (i, oa) ∈ b.ask.ids := get_eq_some_mem b.ask i oa hask
        obtain ⟨hkey, htype⟩ := hwf.1.1 (i, oa) hmem
        have hga : b.ask.get oa.id = some oa := by
          rw [← hkey]
          exact hask
        rw [htype]
        exact hga
      | none =>
        simp only [hask] at h
        cases hbid : b.bid.get i with
        | some ob =>
          simp only [hbid] at h
          injection h with ho
          subst ho
          have hmem : (i, ob) ∈ b.bid.ids := get_eq_some_mem b.bid i ob hbid
          obtain ⟨hkey, htype⟩ := hwf.2.1 (i, ob) hmem
          have hgb : b.bid.get ob.id = some ob := by
            rw [← hkey]
            exact hbid
          rw [htype]
          exact hgb
        | none =>
          simp only [hbid] at h
          cases h

lemma relist_ok_get (l : OrderList) (o : Order) (st' : OrderStatus) (now : Nat)
    (o1 : Order) (l1 : OrderList) (hget : l.get o.id = some o)
    (h : OrderList.relist l (.byOrder o) st' now = Except.ok (o1, l1)) :
    o1.id = o.id ∧ o1.order_type = o.order_type ∧ l1.get o1.id = some o1 := by
  simp only [OrderList.relist, OrderList.resolve] at h
  split at h
  · cases h
  · simp only [Except.ok.injEq, Prod.mk.injEq] at h
    obtain ⟨rfl, rfl⟩ := h
    refine ⟨rfl, rfl, ?_⟩
    exact store_get_self l { o with status := st', listed := some now, updated := now } o hget

lemma add_ok_get (l : OrderList) (o : Order) (now : Nat) (l1 : OrderList)
    (hfresh : l.get o.id = none) (hlisted : ¬ o.listed = none)
    (h : OrderList.add l o Tolist.auto now = Except.ok l1) :
    l1.get o.id = some o := by
  rw [OrderList.add] at h
  split at h
  · cases h
  · by_cases hact : o.status.is_active = true
    · rw [if_pos hact] at h
      injection h with hl
      subst hl
      show OrderList.get ⟨_, OrderList.setId l.ids o.id o, l.otype⟩ o.id = some o
      rw [setId_fresh l o.id o hfresh]
      exact get_append_fresh l o hfresh
    · rw [if_neg hact] at h
      injection h with hl
      subst hl
      rw [setId_fresh l o.id o hfresh]
      exact get_append_fresh l o hfresh

lemma modify_ok_get (l : OrderList) (o : Order) (price : Option ℚ) (volume : Option Int)
    (now : Nat) (o1 : Order) (l1 : OrderList) (hget : l.get o.id = some o)
    (h : OrderList.modify l (.byOrder o) price volume true now = Except.ok (o1, l1)) :
    o1.id = o.id ∧ o1.order_type = o.order_type ∧ l1.get o1.id = some o1 := by
  cases price with
  | none =>
    rw [OrderList.modify.eq_def] at h
    cases h
  | some pq =>
    cases volume with
    | none =>
      rw [OrderList.modify.eq_def] at h
      cases h
    | some vz =>
      rw [OrderList.modify.eq_def] at h
      simp only [OrderList.resolve] at h
      by_cases hguard : pq ≤ 0 ∨ vz ≤ 0
      · rw [if_pos hguard] at h
        cases h
      rw [if_neg hguard] at h
      simp only [if_true] at h
      by_cases hact : o.status.is_active = true
      · rw [if_pos hact] at h
        cases hrem : l.removeListed o.id with
        | error e =>
          simp only [hrem] at h
          cases h
        | ok l1e =>
          simp only [hrem] at h
          obtain ⟨hL1, hI1, hT1⟩ := removeListed_ok_shape l o.id l1e hrem
          have hgetl1 : l1e.get o.id = some o := by
            rw [get_ids_eq l1e l hI1]
            exact hget
          simp only [hgetl1] at h
          rw [if_pos trivial] at h
          simp only [Except.ok.injEq, Prod.mk.injEq] at h
          obtain ⟨rfl, rfl⟩ := h
          refine ⟨rfl, rfl, ?_⟩
          have hg1 : (l1e.store { o with price := pq, updated := now }).get o.id =
              some { o with price := pq, updated := now } :=
            store_get_self l1e { o with price := pq, updated := now } o hgetl1
          have hg2 : ((l1e.store { o with price := pq, updated := now }).store
              { o with price := pq, volume := vz.toNat, updated := now }).get o.id =
              some { o with price := pq, volume := vz.toNat, updated := now } :=
            store_get_self _ { o with price := pq, volume := vz.toNat, updated := now } _ hg1
          exact store_get_self _ { o with price := pq, volume := vz.toNat, status := OrderStatus.modified, updated := now } _ hg2
      · rw [if_neg hact] at h
        simp only [hget] at h
        rw [if_neg Bool.false_ne_true] at h
        simp only [Except.ok.injEq, Prod.mk.injEq] at h
        obtain ⟨rfl, rfl⟩ := h
        refine ⟨rfl, rfl, ?_⟩
        have hg1 : (l.store { o with price := pq, updated := now }).get o.id =
            some { o with price := pq, updated := now } :=
          store_get_self l { o with price := pq, updated := now } o hget
        exact store_get_self _
          { o with price := pq, volume := vz.toNat, updated := now } _ hg1

lemma fill_ok_type (l : OrderList) (c : Order) (v now : Nat) (c1 : Order) (l1 : OrderList)
    (h : OrderList.fill l (.byOrder c) v now = Except.ok (c1, l1)) :
    c1.order_type = c.order_type := by
  simp only [OrderList.fill, OrderList.resolve] at h
  by_cases hv : v = 0
  · rw [if_pos hv] at h
    cases h
  rw [if_neg hv] at h
  by_cases hact : c.status.is_active = false
  · rw [if_pos hact] at h
    cases h
  rw [if_neg hact] at h
  by_cases hvol : c.volume < v
  · rw [if_pos hvol] at h
    cases h
  rw [if_neg hvol] at h
  by_cases hz : c.volume - v = 0
  · rw [if_pos hz] at h
    cases hun : (l.store { c with volume := c.volume - v, updated := now }).unlist
        (.byOrder { c with volume := c.volume - v, updated := now })
        OrderStatus.filled now with
    | error p =>
      rw [hun] at h
      cases h
    | ok l2 =>
      rw [hun] at h
      cases h
      rfl
  · rw [if_neg hz] at h
    cases h
    rfl

lemma fillAux_WF (cs : List Order) (b : OrderBook) (o : Order) (st ct : OrderType)
    (now : Nat) (hwf : BookWF b) (hne : st ≠ ct) (hto : o.order_type = st)
    (hgo : (b.sideOf st).get o.id = some o)
    (htc : ∀ c ∈ cs, c.order_type = ct)
    (hgc : ∀ c ∈ cs, (b.sideOf ct).get c.id = some c)
    (hnd : (cs.map Order.id).Nodup) :
    BookWF (outOB (OrderBook.fillAux b o st ct cs now)) := by
  induction cs generalizing b o with
  | nil =>
    rw [OrderBook.fillAux]
    exact hwf
  | cons c rest ih =>
    rw [OrderBook.fillAux]
    have hwfst : SideWF st (b.sideOf st) := sideOf_WF b hwf st
    have hfillst : SideWF st (outOL (OrderList.fill (b.sideOf st) (.byOrder o)
        (min o.volume c.volume) now)) :=
      fill_SideWF st (b.sideOf st) hwfst o hgo (min o.volume c.volume) now
    cases h1 : OrderList.fill (b.sideOf st) (.byOrder o) (min o.volume c.volume) now with
    | error p =>
      obtain ⟨e, l1⟩ := p
      rw [h1] at hfillst
      simp only [outOL] at hfillst
      exact setSide_BookWF b st l1 hwf hfillst
    | ok p =>
      obtain ⟨o1, l1⟩ := p
      dsimp only
      rw [h1] at hfillst
      simp only [outOL] at hfillst
      have hwf1 : BookWF (b.setSide st l1) := setSide_BookWF b st l1 hwf hfillst
      have hsidect : (b.setSide st l1).sideOf ct = b.sideOf ct :=
        sideOf_setSide_other b st ct l1 (Ne.symm hne)
      have hgc0 : ((b.setSide st l1).sideOf ct).get c.id = some c := by
        rw [hsidect]
        exact hgc c (List.mem_cons_self c rest)
      have hwfct : SideWF ct ((b.setSide st l1).sideOf ct) := sideOf_WF _ hwf1 ct
      have hfillct : SideWF ct (outOL (OrderList.fill ((b.setSide st l1).sideOf ct)
          (.byOrder c) (min o.volume c.volume) now)) :=
        fill_SideWF ct _ hwfct c hgc0 (min o.volume c.volume) now
      cases h2 : OrderList.fill ((b.setSide st l1).sideOf ct) (.byOrder c)
          (min o.volume c.volume) now with
      | error p =>
        obtain ⟨e, l2⟩ := p
        rw [h2] at hfillct
        simp only [outOL] at hfillct
        exact setSide_BookWF _ ct l2 hwf1 hfillct
      | ok p =>
        obtain ⟨c1, l2⟩ := p
        dsimp only
        rw [h2] at hfillct
        simp only [outOL] at hfillct
        have hwf2 : BookWF ((b.setSide st l1).setSide ct l2) :=
          setSide_BookWF _ ct l2 hwf1 hfillct
        have hwf3 : BookWF { (b.setSide st l1).setSide ct l2 with
            tape := ((b.setSide st l1).setSide ct l2).tape ++
              [⟨o.id, c.id, c.price, min o.volume c.volume, now⟩] } :=
          tape_BookWF _ _ hwf2
        by_cases hfil : o1.status = OrderStatus.filled
        · rw [if_pos hfil]
          exact hwf3
        · rw [if_neg hfil]
          obtain ⟨hid1, _, _, _, hself1⟩ :=
            fill_ok_facts (b.sideOf st) o (min o.volume c.volume) now o1 l1 h1
          have hty1 : o1.order_type = st := by
            rw [fill_ok_type (b.sideOf st) o (min o.volume c.volume) now o1 l1 h1]
            exact hto
          obtain ⟨hidc, _, _, hother2, _⟩ :=
            fill_ok_facts ((b.setSide st l1).sideOf ct) c (min o.volume c.volume) now c1 l2 h2
          refine ih _ o1 hwf3 hty1 ?_ (fun x hx => htc x (List.mem_cons_of_mem c hx)) ?_
            (List.Nodup.of_cons hnd)
          · rw [sideOf_tape_update, sideOf_setSide_other _ ct st l2 hne,
              sideOf_setSide_same, hid1]
            exact hself1 o hgo
          · intro x hx
            have hxid : x.id ≠ c.id := by
              intro hcontra
              have : c.id ∈ rest.map Order.id := by
                rw [← hcontra]
                exact List.mem_map_of_mem Order.id hx
              exact (List.nodup_cons.mp hnd).1 this
            rw [sideOf_tape_update, sideOf_setSide_same, hother2 x.id hxid, hsidect]
            exact hgc x (List.mem_cons_of_mem c hx)

lemma matchOrders_facts (b : OrderBook) (o : Order) (hwf : BookWF b) :
    (∀ c ∈ b.matchOrders o, c.order_type = opposite o.order_type ∧
      (b.sideOf (opposite o.order_type)).get c.id = some c) ∧
    ((b.matchOrders o).map Order.id).Nodup := by
  have hside : ∀ (t : OrderType) (matched : List Order),
      matched.Sublist ((b.sideOf t).order_list) →
      (∀ c ∈ OrderBook.sortListed matched, c.order_type = t ∧
        (b.sideOf t).get c.id = some c) ∧
      ((OrderBook.sortListed matched).map Order.id).Nodup := by
    intro t matched hsub
    have hwft : SideWF t (b.sideOf t) := sideOf_WF b hwf t
    obtain ⟨ha, hb, hc, hd, he, hf⟩ := hwft
    have hperm := sortListed_perm matched
    constructor
    · intro c hcmem
      have hcm : c ∈ matched := hperm.mem_iff.mp hcmem
      have hco : c ∈ (b.sideOf t).order_list := hsub.mem hcm
      have hget : (b.sideOf t).get c.id = some c := hc c hco
      have hids : (c.id, c) ∈ (b.sideOf t).ids := get_eq_some_mem _ _ _ hget
      exact ⟨(ha _ hids).2, hget⟩
    · have h1 : ((OrderBook.sortListed matched).map Order.id).Perm (matched.map Order.id) :=
        hperm.map Order.id
      have h2 : (matched.map Order.id).Nodup :=
        hd.sublist (List.Sublist.map Order.id hsub)
      exact h1.nodup_iff.mpr h2
  rw [OrderBook.matchOrders]
  cases hty : o.order_type with
  | ask =>
    have := hside OrderType.bid (b.bid.bisect_left o.price)
      (List.dropWhile_sublist _)
    simpa [hty, opposite, OrderBook.sideOf] using this
  | bid =>
    have := hside OrderType.ask (b.ask.bisect_right o.price)
      (List.takeWhile_sublist _)
    simpa [hty, opposite, OrderBook.sideOf] using this

lemma opposite_ne (t : OrderType) : t ≠ opposite t := by
  cases t <;> simp [opposite]

lemma match_fill_WF (b : OrderBook) (o : Order) (now : Nat) (hwf : BookWF b)
    (hgo : (b.sideOf o.order_type).get o.id = some o) :
    BookWF (outB (b.match_fill o now)) := by
  rw [OrderBook.match_fill, OrderBook.fill.eq_def]
  obtain ⟨hmem, hnd⟩ := matchOrders_facts b o hwf
  cases hcs : b.matchOrders o with
  | nil => exact hwf
  | cons c0 rest =>
    dsimp only
    rw [outB_map_snd]
    have hc0 : c0.order_type = opposite o.order_type :=
      (hmem c0 (by rw [hcs]; exact List.mem_cons_self c0 rest)).1
    rw [hc0]
    refine fillAux_WF (c0 :: rest) b o o.order_type (opposite o.order_type) now hwf
      (opposite_ne o.order_type) rfl hgo ?_ ?_ ?_
    · intro x hx
      exact (hmem x (by rw [hcs]; exact hx)).1
    · intro x hx
      exact (hmem x (by rw [hcs]; exact hx)).2
    · rw [← hcs]
      exact hnd

lemma add_WF (b : OrderBook) (o : Order) (now : Nat) (hwf : BookWF b)
    (hfresh : (b.sideOf o.order_type).get o.id = none) :
    BookWF (outB (b.add o now)) := by
  rw [OrderBook.add]
  dsimp only
  have hside : SideWF o.order_type (outL (OrderList.add (b.sideOf o.order_type)
      { o with listed := some now, updated := now } Tolist.auto now)) :=
    add_SideWF o.order_type (b.sideOf o.order_type) (sideOf_WF b hwf o.order_type)
      { o with listed := some now, updated := now } hfresh now
  cases hadd : OrderList.add (b.sideOf o.order_type)
      { o with listed := some now, updated := now } Tolist.auto now with
  | error p =>
    obtain ⟨e, l1⟩ := p
    rw [hadd] at hside
    simp only [outL] at hside
    exact setSide_BookWF b o.order_type l1 hwf hside
  | ok l1 =>
    rw [hadd] at hside
    simp only [outL] at hside
    dsimp only
    have hwf1 : BookWF (b.setSide o.order_type l1) :=
      setSide_BookWF b o.order_type l1 hwf hside
    have hg1 : l1.get o.id = some { o with listed := some now, updated := now } :=
      add_ok_get (b.sideOf o.order_type) { o with listed := some now, updated := now }
        now l1 hfresh (by simp) hadd
    refine match_fill_WF (b.setSide o.order_type l1)
      { o with listed := some now, updated := now } now hwf1 ?_
    show ((b.setSide o.order_type l1).sideOf o.order_type).get o.id =
      some { o with listed := some now, updated := now }
    rw [sideOf_setSide_same]
    exact hg1

lemma cancel_WF (b : OrderBook) (a : OArg) (t : Option OrderType) (now : Nat)
    (hwf : BookWF b) : BookWF (outB (b.cancel a t now)) := by
  rw [OrderBook.cancel]
  cases hs : b.search_order a t with
  | error e => exact hwf
  | ok o =>
    dsimp only
    by_cases hina : o.status.is_active = false
    · rw [if_pos hina]
      exact hwf
    rw [if_neg hina]
    have hget : (b.sideOf o.order_type).get o.id = some o := search_ok_stored b hwf a t o hs
    have hside : SideWF o.order_type (outL (OrderList.cancel (b.sideOf o.order_type)
        (.byOrder o) now)) :=
      cancel_SideWF o.order_type (b.sideOf o.order_type) (sideOf_WF b hwf o.order_type)
        o hget now
    cases hc : OrderList.cancel (b.sideOf o.order_type) (.byOrder o) now with
    | error p =>
      obtain ⟨e, l1⟩ := p
      rw [hc] at hside
      simp only [outL] at hside
      exact setSide_BookWF b o.order_type l1 hwf hside
    | ok l1 =>
      rw [hc] at hside
      simp only [outL] at hside
      exact setSide_BookWF b o.order_type l1 hwf hside

lemma expire_WF (b : OrderBook) (a : OArg) (t : Option OrderType) (now : Nat)
    (hwf : BookWF b) : BookWF (outB (b.expire a t now)) := by
  rw [OrderBook.expire]
  cases hs : b.search_order a t with
  | error e => exact hwf
  | ok o =>
    dsimp only
    by_cases hina : o.status.is_active = false
    · rw [if_pos hina]
      exact hwf
    rw [if_neg hina]
    have hget : (b.sideOf o.order_type).get o.id = some o := search_ok_stored b hwf a t o hs
    have hside : SideWF o.order_type (outL (OrderList.expire (b.sideOf o.order_type)
        (.byOrder o) now)) :=
      expire_SideWF o.order_type (b.sideOf o.order_type) (sideOf_WF b hwf o.order_type)
        o hget now
    cases hc : OrderList.expire (b.sideOf o.order_type) (.byOrder o) now with
    | error p =>
      obtain ⟨e, l1⟩ := p
      rw [hc] at hside
      simp only [outL] at hside
      exact setSide_BookWF b o.order_type l1 hwf hside
    | ok l1 =>
      rw [hc] at hside
      simp only [outL] at hside
      exact setSide_BookWF b o.order_type l1 hwf hside

lemma restore_WF (b : OrderBook) (a : OArg) (t : Option OrderType) (now : Nat)
    (hwf : BookWF b) : BookWF (outB (b.restore a t now)) := by
  rw [OrderBook.restore]
  cases hs : b.search_order a t with
  | error e => exact hwf
  | ok o =>
    dsimp only
    by_cases hact : o.status.is_active = true
    · rw [if_pos hact]
      exact hwf
    rw [if_neg hact]
    have hina : o.status.is_active = false := by
      cases hx : o.status.is_active
      · rfl
      · exact absurd hx hact
    have hget : (b.sideOf o.order_type).get o.id = some o := search_ok_stored b hwf a t o hs
    have hside : SideWF o.order_type (outOL (OrderList.relist (b.sideOf o.order_type)
        (.byOrder o) OrderStatus.restored now)) :=
      relist_SideWF o.order_type (b.sideOf o.order_type) (sideOf_WF b hwf o.order_type)
        o hget OrderStatus.restored now hina
    cases hc : OrderList.relist (b.sideOf o.order_type) (.byOrder o)
        OrderStatus.restored now with
    | error p =>
      obtain ⟨e, l1⟩ := p
      rw [hc] at hside
      simp only [outOL] at hside
      exact setSide_BookWF b o.order_type l1 hwf hside
    | ok p =>
      obtain ⟨o1, l1⟩ := p
      rw [hc] at hside
      simp only [outOL] at hside
      dsimp only
      have hwf1 : BookWF (b.setSide o.order_type l1) :=
        setSide_BookWF b o.order_type l1 hwf hside
      obtain ⟨hid1, hty1, hg1⟩ :=
        relist_ok_get (b.sideOf o.order_type) o OrderStatus.restored now o1 l1 hget hc
      refine match_fill_WF (b.setSide o.order_type l1) o1 now hwf1 ?_
      rw [hty1, sideOf_setSide_same]
      exact hg1

lemma modify_WF (b : OrderBook) (a : OArg) (t : Option OrderType)
    (price : Option ℚ) (volume : Option Int) (now : Nat)
    (hwf : BookWF b) : BookWF (outB (b.modify a t price volume now)) := by
  rw [OrderBook.modify]
  cases hs : b.search_order a t with
  | error e => exact hwf
  | ok o =>
    dsimp only
    have hget : (b.sideOf o.order_type).get o.id = some o := search_ok_stored b hwf a t o hs
    have hside : SideWF o.order_type (outOL (OrderList.modify (b.sideOf o.order_type)
        (.byOrder o) price volume true now)) :=
      modify_SideWF o.order_type (b.sideOf o.order_type) (sideOf_WF b hwf o.order_type)
        o hget price volume now
    cases hc : OrderList.modify (b.sideOf o.order_type) (.byOrder o)
        price volume true now with
    | error p =>
      obtain ⟨e, l1⟩ := p
      rw [hc] at hside
      simp only [outOL] at hside
      exact setSide_BookWF b o.order_type l1 hwf hside
    | ok p =>
      obtain ⟨o1, l1⟩ := p
      rw [hc] at hside
      simp only [outOL] at hside
      dsimp only
      have hwf1 : BookWF (b.setSide o.order_type l1) :=
        setSide_BookWF b o.order_type l1 hwf hside
      obtain ⟨hid1, hty1, hg1⟩ :=
        modify_ok_get (b.sideOf o.order_type) o price volume now o1 l1 hget hc
      refine match_fill_WF (b.setSide o.order_type l1) o1 now hwf1 ?_
      rw [hty1, sideOf_setSide_same]
      exact hg1

lemma remove_WF (b : OrderBook) (a : OArg) (t : Option OrderType)
    (hwf : BookWF b) : BookWF (outB (b.remove_order a t)) := by
  rw [OrderBook.remove_order]
  cases hs : b.search_order a t with
  | error e => exact hwf
  | ok o =>
    dsimp only
    have hget : (b.sideOf o.order_type).get o.id = some o := search_ok_stored b hwf a t o hs
    have hside : SideWF o.order_type (outL (OrderList.remove (b.sideOf o.order_type)
        (.byOrder o))) :=
      remove_SideWF o.order_type (b.sideOf o.order_type) (sideOf_WF b hwf o.order_type)
        o hget
    cases hc : OrderList.remove (b.sideOf o.order_type) (.byOrder o) with
    | error p =>
      obtain ⟨e, l1⟩ := p
      rw [hc] at hside
      simp only [outL] at hside
      exact setSide_BookWF b o.order_type l1 hwf hside
    | ok l1 =>
      rw [hc] at hside
      simp only [outL] at hside
      exact setSide_BookWF b o.order_type l1 hwf hside

lemma fillOp_WF (b : OrderBook) (i : Nat) (now : Nat) (hwf : BookWF b) :
    BookWF (OrderBook.step b (.fillOp i now)) := by
  rw [OrderBook.step]
  cases hask : b.ask.get i with
  | some o =>
    dsimp only
    have hmem : (i, o) ∈ b.ask.ids := get_eq_some_mem b.ask i o hask
    obtain ⟨hkey, htype⟩ := hwf.1.1 (i, o) hmem
    refine match_fill_WF b o now hwf ?_
    rw [htype]
    show b.ask.get o.id = some o
    rw [← hkey]
    exact hask
  | none =>
    dsimp only
    cases hbid : b.bid.get i with
    | some o =>
      dsimp only
      have hmem : (i, o) ∈ b.bid.ids := get_eq_some_mem b.bid i o hbid
      obtain ⟨hkey, htype⟩ := hwf.2.1 (i, o) hmem
      refine match_fill_WF b o now hwf ?_
      rw [htype]
      show b.bid.get o.id = some o
      rw [← hkey]
      exact hbid
    | none => exact hwf

lemma step_WF (b : OrderBook) (op : BookOp) (hwf : BookWF b)
    (hfr : freshOp b op = true) : BookWF (OrderBook.step b op) := by
  cases op with
  | addOp o now =>
    have hfresh : (b.sideOf o.order_type).get o.id = none := by
      simp only [freshOp, Option.isNone_iff_eq_none] at hfr
      exact hfr
    exact add_WF b o now hwf hfresh
  | cancelOp a t now => exact cancel_WF b a t now hwf
  | expireOp a t now => exact expire_WF b a t now hwf
  | restoreOp a t now => exact restore_WF b a t now hwf
  | modifyOp a t p v now => exact modify_WF b a t p v now hwf
  | removeOp a t => exact remove_WF b a t hwf
  | fillOp i now => exact fillOp_WF b i now hwf
  | drainOp => exact hwf

lemma run_WF (ops : List BookOp) (b : OrderBook) (hwf : BookWF b)
    (hfr : freshRun b ops = true) : BookWF (b.run ops) := by
  induction ops generalizing b with
  | nil => exact hwf
  | cons op rest ih =>
    rw [freshRun, Bool.and_eq_true] at hfr
    rw [OrderBook.run]
    exact ih (b.step op) (step_WF b op hwf hfr.1) hfr.2

lemma empty_WF : BookWF OrderBook.empty := by
  refine ⟨⟨?_, ?_, ?_, ?_, ?_, rfl⟩, ⟨?_, ?_, ?_, ?_, ?_, rfl⟩⟩ <;> simp [OrderBook.empty]

lemma is_active_iff (s : OrderStatus) :
    s.is_active = true ↔ (s = OrderStatus.created ∨ s = OrderStatus.partFilled ∨
      s = OrderStatus.modified ∨ s = OrderStatus.restored) := by
  cases s <;> simp [OrderStatus.is_active]

/-- C4: after every sequence of Book operations starting from the empty
book (each added id fresh on its side, as the global allocator guarantees),
every order held by a Side Index's id table is present in that side's
sorted structure if and only if its status is one of Created,
PartiallyFilled, Modified, Restored. -/
theorem status_index_coupling (ops : List BookOp)
    (hfresh : freshRun OrderBook.empty ops = true) (t : OrderType) :
    ∀ p ∈ ((OrderBook.empty.run ops).sideOf t).ids,
      (p.2 ∈ ((OrderBook.empty.run ops).sideOf t).order_list ↔
        (p.2.status = OrderStatus.created ∨ p.2.status = OrderStatus.partFilled ∨
         p.2.status = OrderStatus.modified ∨ p.2.status = OrderStatus.restored)) := by
  intro p hp
  have hwf := run_WF ops OrderBook.empty empty_WF hfresh
  have hside := sideOf_WF _ hwf t
  rw [← is_active_iff]
  exact hside.2.2.2.2.1 p hp

/-- C4 witness: the coupling holds concretely on the ask side after
`wOps` (where order 1 ends PartiallyFilled and listed, order 2 Filled and
unlisted). -/
theorem status_index_coupling_witness :
    freshRun OrderBook.empty wOps = true ∧
    ∀ p ∈ ((OrderBook.empty.run wOps).sideOf OrderType.ask).ids,
      (p.2 ∈ ((OrderBook.empty.run wOps).sideOf OrderType.ask).order_list ↔
        (p.2.status = OrderStatus.created ∨ p.2.status = OrderStatus.partFilled ∨
         p.2.status = OrderStatus.modified ∨ p.2.status = OrderStatus.restored)) :=
  ⟨by decide, status_index_coupling wOps (by decide) OrderType.ask⟩
